import Mathlib

/-!
# The desktop panel (userspace/gui/core/panel.c)

A shallow embedding of the panel's window-list refresh, renderer hit-region
table, pointer-event dispatch and icon cache, together with the properties
of the specification that can be settled on it.

Conventions of the embedding.

* A C string is the list of its bytes before the terminating NUL; string
  literals of the source are written `ascii "..."`.
* `yutani_wid_t` and `uint32_t` values are `Nat`. The `int` arithmetic of
  redraw is reduced to 32 bits by `int32`, its `uint32_t` arithmetic by
  `uint32`. Coordinates of pointer events and the panel width are `Int`.
* Pointers to `sprite_t` are natural numbers, `0` being `NULL`; `malloc`
  hands out the successor of the last number it handed out.
* Nodes of a `list_t` are addressed by their position in the list.
* Requests sent to the compositor, filesystem probes and drawing calls are
  collected, in program order, in a list of `Out` events.
* A memory fault or undefined behaviour (a `NULL` sprite dereferenced, a
  string read through a pointer that leaves the copied blob, the 100-byte
  path buffer overrun) sets the `fault` field of the state: the function at
  hand stops there and nothing is claimed of a faulted run.
* The two spin locks are free on entry and released on exit of every function
  in a single thread of control, so they do not appear in the sequential
  embedding.
-/

namespace Panel

/-! ## Data model -/

/-- The bytes of a string literal of the source. -/
def ascii (s : String) : List Nat :=
  s.toList.map Char.toNat

/-- The value of a C `int` expression: the 32-bit two-complement reading. -/
def int32 (z : Int) : Int :=
  (z + 2147483648) % 4294967296 - 2147483648

/-- The value of a C `uint32_t` expression. -/
def uint32 (n : Nat) : Nat :=
  n % 4294967296

/-- The panel keeps `struct window_ad` values in its window list. The fields
`name` and `icon` point into the copy `strings` of the blob; they are `none`
when the pointer does not address a NUL-terminated string inside the copy. -/
structure window_ad where
  wid : Nat
  flags : Nat
  name : Option (List Nat)
  icon : Option (List Nat)
  strings : List Nat
  deriving DecidableEq, Repr

/-- The payload of a `YUTANI_MSG_WINDOW_ADVERTISE` message as read by
`update_window_list`: identifier, flags, offset table and the blob `strings`,
whose length is the field `size`. -/
structure yutani_msg_window_advertise where
  wid : Nat
  flags : Nat
  offsets : List Nat
  strings : List Nat
  deriving DecidableEq, Repr

/-- The field `size`: the number of bytes of the blob. -/
def yutani_msg_window_advertise.size (wa : yutani_msg_window_advertise) : Nat :=
  wa.strings.length

/-- Pointer-event commands; `other` stands for the commands the panel ignores
(drag, raise, down). -/
inductive mouse_command where
  | click
  | move
  | enter
  | leave
  | other
  deriving DecidableEq, Repr

/-- The fields of `struct yutani_msg_window_mouse_event` read by the panel. -/
structure yutani_msg_window_mouse_event where
  command : mouse_command
  new_x : Int
  new_y : Int
  deriving DecidableEq, Repr

/-- Observable actions, in program order. `redraw` marks the entry into
redraw (line 186), `flip` its final `yutani_flip` (line 278). -/
inductive Out where
  | session_end
  | focus_window (wid : Nat)
  | access (path : List Nat)
  | highlight (x0 x1 : Int)
  | draw_sprite (icon : Nat) (x : Int)
  | draw_sprite_scaled (icon : Nat) (x : Int)
  | draw_string (x : Int) (color : Nat × Nat × Nat) (s : List Nat)
  | query_windows
  | redraw
  | flip
  deriving DecidableEq, Repr

/-- What the collaborators answer: the rendered width of a string, whether a
path is readable, and the pixel width of the sprite decoded from a path. -/
structure Env where
  draw_string_width : List Nat → Nat
  readable : List Nat → Bool
  png_width : List Nat → Nat

/-- The global variables of panel.c, the decoded sprites, and whether the
process has faulted. -/
structure State where
  width : Int
  window_list : Option (List window_ad)
  icon_lefts : List Int
  icon_wids : List Nat
  focused_app : Int
  _continue : Bool
  icon_cache : List (List Nat × Nat)
  sprite_widths : List (Nat × Nat)
  next_ptr : Nat
  fault : Bool
  deriving DecidableEq, Repr

def PANEL_HEIGHT : Int := 28

/-- The state right after the globals are initialised: both tables all zero,
no hover target, no window list, empty icon cache. -/
def State.init (width : Int) : State :=
  { width := width
    window_list := none
    icon_lefts := List.replicate 20 0
    icon_wids := List.replicate 20 0
    focused_app := -1
    _continue := true
    icon_cache := []
    sprite_widths := []
    next_ptr := 0
    fault := false }

/-! ## The list library -/

/-- Modelled from the spec: lib/list.c is not among the sources. `list_insert`
adds the item at the tail of the list (the fallback of the ordered insertion
when no larger identifier is found). -/
def list_insert {α : Type} (l : List α) (item : α) : List α :=
  l ++ [item]

/-- Modelled from the spec: lib/list.c is not among the sources.
`list_insert_before` links the item directly in front of the given node. -/
def list_insert_before {α : Type} (l : List α) (before : Nat) (item : α) : List α :=
  l.take before ++ item :: l.drop before

/-! ## update_window_list -/

/-- The C string at `&s[off]` when `s` holds a NUL at or after `off`; `none`
when reading it would leave `s`. -/
def cstr_at (s : List Nat) (off : Nat) : Option (List Nat) :=
  if 0 ∈ s.drop off then some ((s.drop off).takeWhile (fun b => b != 0)) else none

/-- Lines 304-312: the `window_ad` built from one advertisement. -/
def decode_ad (wa : yutani_msg_window_advertise) : window_ad :=
  { wid := wa.wid
    flags := wa.flags
    name := cstr_at wa.strings (wa.offsets.getD 0 0)
    icon := cstr_at wa.strings (wa.offsets.getD 1 0)
    strings := wa.strings }

/-- Lines 314-323: the first node whose identifier is larger than the new one. -/
def find_next (new_window_list : List window_ad) (ad : window_ad) : Option Nat :=
  new_window_list.findIdx? (fun n => decide (n.wid > ad.wid))

/-- Lines 325-329. -/
def insert_ad (new_window_list : List window_ad) (ad : window_ad) : List window_ad :=
  match find_next new_window_list ad with
  | some next => list_insert_before new_window_list next ad
  | none => list_insert new_window_list ad

/-- Lines 299-302. -/
def record_wid (icon_wids : List Nat) (i : Nat) (wid : Nat) : List Nat :=
  if i < 19 then (icon_wids.set i wid).set (i + 1) 0 else icon_wids

/-- The `while (1)` loop of `update_window_list` over the advertisement
messages that `yutani_wait_for` delivers. The result is `none` when the
messages run out before the zero-size sentinel (the call then never returns). -/
def advertise_loop : List yutani_msg_window_advertise → List window_ad → Nat → List Nat →
    Option (List window_ad × List Nat)
  | [], _, _, _ => none
  | wa :: rest, new_window_list, i, icon_wids =>
    if wa.size = 0 then some (new_window_list, icon_wids)
    else
      advertise_loop rest (insert_ad new_window_list (decode_ad wa)) (i + 1)
        (record_wid icon_wids i wa.wid)

/-! ## The icon cache -/

/-- Modelled from the spec: lib/hashmap.c is not among the sources.
`hashmap_get` yields the value stored under the key, `NULL` when absent. -/
def hashmap_get (m : List (List Nat × Nat)) (key : List Nat) : Nat :=
  match m with
  | [] => 0
  | (k, v) :: rest => if k = key then v else hashmap_get rest key

/-- Modelled from the spec: lib/hashmap.c is not among the sources.
`hashmap_set` replaces the value stored under the key or adds the key. -/
def hashmap_set (m : List (List Nat × Nat)) (key : List Nat) (value : Nat) :
    List (List Nat × Nat) :=
  match m with
  | [] => [(key, value)]
  | (k, v) :: rest =>
    if k = key then (key, value) :: rest else (k, v) :: hashmap_set rest key value

def icon_directories : List (List Nat) :=
  [ascii "/usr/share/icons/24", ascii "/usr/share/icons/48", ascii "/usr/share/icons"]

/-- The width field of a decoded sprite. -/
def sprite_width (s : State) (icon : Nat) : Nat :=
  match s.sprite_widths.lookup icon with
  | some w => w
  | none => 0

/-- Lines 170-171 (and 379-380): `malloc` a sprite and decode the file into it. -/
def load_new_sprite (env : Env) (s : State) (path : List Nat) : Nat × State :=
  (s.next_ptr + 1,
    { s with sprite_widths := (s.next_ptr + 1, env.png_width path) :: s.sprite_widths
             next_ptr := s.next_ptr + 1 })

/-- How the scan of the icon directories ends: a readable file was decoded,
no directory holds the file, or a path did not fit `char path[100]`. -/
inductive probe where
  | found (icon : Nat)
  | absent
  | overrun
  deriving DecidableEq, Repr

/-- Lines 165-176: the `while (icon_directories[i])` loop. `sprintf` writes
the path and its NUL into `char path[100]`. -/
def icon_probe (env : Env) (s : State) (name : List Nat) :
    List (List Nat) → probe × State × List Out
  | [] => (probe.absent, s, [])
  | dir :: dirs =>
    let path := dir ++ ascii "/" ++ name ++ ascii ".png"
    if 100 < path.length + 1 then (probe.overrun, s, [])
    else if env.readable path then
      let r := load_new_sprite env s path
      (probe.found r.1, { r.2 with icon_cache := hashmap_set r.2.icon_cache name r.1 },
        [Out.access path])
    else
      let r := icon_probe env s name dirs
      (r.1, r.2.1, Out.access path :: r.2.2)

/-- Lines 154-183. After an overrun of the path buffer the state is faulted
and the result is not a sprite. -/
def icon_get (env : Env) (s : State) (name : List Nat) : Nat × State × List Out :=
  if name = [] then (hashmap_get s.icon_cache (ascii "generic"), s, [])
  else
    let icon := hashmap_get s.icon_cache name
    if icon = 0 then
      match icon_probe env s name icon_directories with
      | (probe.found found, s1, out) => (found, s1, out)
      | (probe.overrun, s1, out) => (0, { s1 with fault := true }, out)
      | (probe.absent, s1, out) =>
        let generic := hashmap_get s1.icon_cache (ascii "generic")
        (generic, { s1 with icon_cache := hashmap_set s1.icon_cache name generic }, out)
    else (icon, s, [])

/-! ## redraw -/

def txt_color : Nat × Nat × Nat := (230, 230, 230)

/-- Line 234: `int w = 26 + draw_string_width(s) + 20`, the sum taken in
`uint32_t` and converted to `int`. -/
def entry_width (env : Env) (name : List Nat) : Int :=
  int32 (uint32 (26 + uint32 (env.draw_string_width name) + 20))

/-- Lines 253-261: the colour of the label. -/
def label_color (s : State) (j : Nat) (ad : window_ad) : Nat × Nat × Nat :=
  if (j : Int) = s.focused_app then (142, 216, 255)
  else if Nat.land ad.flags 1 ≠ 0 then (255, 255, 255)
  else txt_color

/-- Lines 227-267: the traversal of the window list, with the running offset
`i` and the running entry count `j`. It stops with the state faulted when a
name or icon identifier cannot be read (lines 234, 245), when the path buffer
is overrun, or when the sprite is `NULL` (line 247). The pixel loop of the
highlight bar (lines 238-242) is the one event `highlight` with the bounds of
its columns. -/
def redraw_entries (env : Env) : List window_ad → Int → Nat → State →
    State × Int × Nat × List Out
  | [], i, j, s => (s, i, j, [])
  | ad :: rest, i, j, s =>
    match ad.name, ad.icon with
    | none, _ => ({ s with fault := true }, i, j, [])
    | some name, icon_name =>
      let w := entry_width env name
      let hl :=
        if Nat.land ad.flags 1 ≠ 0 then
          [Out.highlight (int32 (135 + i)) (int32 (int32 (int32 (135 + i) + w) - 10))]
        else []
      match icon_name with
      | none => ({ s with fault := true }, i, j, hl)
      | some ic =>
        let g := icon_get env s ic
        let icon := g.1
        let s1 := g.2.1
        if icon = 0 then ({ s1 with fault := true }, i, j, hl ++ g.2.2)
        else
          let spr :=
            if sprite_width s1 icon = 24 then Out.draw_sprite icon (int32 (140 + i))
            else Out.draw_sprite_scaled icon (int32 (140 + i))
          let str := Out.draw_string (int32 (int32 (140 + i) + 26)) (label_color s1 j ad) name
          let s2 :=
            if j < 18 then { s1 with icon_lefts := s1.icon_lefts.set j (int32 (140 + i)) } else s1
          let j2 := if j < 18 then j + 1 else j
          let r := redraw_entries env rest (int32 (i + w)) j2 s2
          (r.1, r.2.1, r.2.2.1, hl ++ g.2.2 ++ [spr, str] ++ r.2.2.2)

/-- Lines 185-281. The background, clock, date, label and logout button only
write to the back buffer and are left out. A traversal that faults ends the
run before the sentinel is written and before the flip. -/
def redraw (env : Env) (s : State) : State × List Out :=
  match s.window_list with
  | none => (s, [Out.redraw, Out.flip])
  | some l =>
    let r := redraw_entries env l 0 0 s
    let s1 := r.1
    let i := r.2.1
    let j := r.2.2.1
    if s1.fault then (s1, Out.redraw :: r.2.2.2)
    else
      let s2 :=
        if j < 19 then
          { s1 with icon_lefts := (s1.icon_lefts.set j (int32 (140 + i))).set (j + 1) 0 }
        else s1
      (s2, Out.redraw :: r.2.2.2 ++ [Out.flip])

/-! ## Pointer events -/

/-- Lines 103-108. -/
def set_focused (env : Env) (s : State) (i : Int) : State × List Out :=
  if s.focused_app ≠ i then redraw env { s with focused_app := i } else (s, [])

/-- Lines 118-125: the scan of a CLICK, `n` iterations starting at index `i`. -/
def click_scan (s : State) (x : Int) : Nat → Nat → List Out
  | 0, _ => []
  | n + 1, i =>
    if x ≥ s.icon_lefts.getD i 0 ∧ x < s.icon_lefts.getD (i + 1) 0 then
      (if s.icon_wids.getD i 0 ≠ 0 then [Out.focus_window (s.icon_wids.getD i 0)] else [])
    else click_scan s x n (i + 1)

/-- Lines 129-138: the scan of a MOVE or ENTER, `n` iterations starting at
index `i`; the result is the argument passed to `set_focused`, if any. -/
def hover_scan (s : State) (x : Int) : Nat → Nat → Option Int
  | 0, _ => none
  | n + 1, i =>
    if s.icon_lefts.getD i 0 = 0 then some (-1)
    else if x ≥ s.icon_lefts.getD i 0 ∧ x < s.icon_lefts.getD (i + 1) 0 then some (i : Int)
    else hover_scan s x n (i + 1)

/-- Lines 111-145. -/
def panel_check_click (env : Env) (s : State) (evt : yutani_msg_window_mouse_event) :
    State × List Out :=
  match evt.command with
  | mouse_command.click =>
    if evt.new_x ≥ s.width - 24 then ({ s with _continue := false }, [Out.session_end])
    else (s, click_scan s evt.new_x 18 0)
  | mouse_command.move | mouse_command.enter =>
    if evt.new_y < PANEL_HEIGHT then
      match hover_scan s evt.new_x 18 0 with
      | some i => set_focused env s i
      | none => (s, [])
    else set_focused env s (-1)
  | mouse_command.leave => set_focused env s (-1)
  | mouse_command.other => (s, [])

/-! ## Refresh and the dispatcher loop -/

/-- Lines 283-349; `adverts` are the messages that the calls of
`yutani_wait_for` deliver. -/
def update_window_list (env : Env) (s : State) (adverts : List yutani_msg_window_advertise) :
    Option (State × List Out) :=
  match advertise_loop adverts [] 0 s.icon_wids with
  | none => none
  | some (new_window_list, icon_wids) =>
    let r := redraw env { s with window_list := some new_window_list, icon_wids := icon_wids }
    some (r.1, Out.query_windows :: r.2)

/-- What `yutani_poll` returns to the dispatcher; a notification carries the
advertisement messages that answer the query it triggers. -/
inductive yutani_msg where
  | notify (adverts : List yutani_msg_window_advertise)
  | window_mouse_event (evt : yutani_msg_window_mouse_event)
  | other
  deriving DecidableEq, Repr

/-- Lines 419-428: the `switch` on one polled message (`none` is a `NULL`
message). -/
def dispatch (env : Env) (s : State) : Option yutani_msg → Option (State × List Out)
  | some (yutani_msg.notify adverts) => update_window_list env s adverts
  | some (yutani_msg.window_mouse_event evt) => some (panel_check_click env s evt)
  | some yutani_msg.other => some (s, [])
  | none => some (s, [])

/-- Lines 416-431: the `while (_continue)` loop over the polled messages; a
faulted process polls no more. The result is `none` when a refresh never
returns. -/
def event_loop (env : Env) : List (Option yutani_msg) → State → Option (State × List Out)
  | [], s => some (s, [])
  | m :: ms, s =>
    if s._continue ∧ s.fault = false then
      match dispatch env s m with
      | none => none
      | some (s1, out1) =>
        match event_loop env ms s1 with
        | none => none
        | some (s2, out2) => some (s2, out1 ++ out2)
    else some (s, [])

/-- Lines 375-394 and 414: the window list is `NULL`, the cache holds the
three preloaded icons, and the first refresh runs. -/
def startup (env : Env) (width : Int) (adverts : List yutani_msg_window_advertise) :
    Option (State × List Out) :=
  let g := load_new_sprite env (State.init width)
    (ascii "/usr/share/icons/24/applications-generic.png")
  let s1 := { g.2 with icon_cache := hashmap_set g.2.icon_cache (ascii "generic") g.1 }
  let t := load_new_sprite env s1 (ascii "/usr/share/icons/24/utilities-terminal.png")
  let s2 := { t.2 with icon_cache := hashmap_set t.2.icon_cache (ascii "utilities-terminal") t.1 }
  let p := load_new_sprite env s2 (ascii "/usr/share/icons/24/applications-painting.png")
  let s3 :=
    { p.2 with icon_cache := hashmap_set p.2.icon_cache (ascii "applications-painting") p.1 }
  update_window_list env s3 adverts

/-! ## Sample inputs -/

/-- A collaborator whose font is 8 pixels per character, with no icon files on
disk and 24-pixel preloaded sprites. -/
def sample_env : Env :=
  { draw_string_width := fun s => 8 * s.length
    readable := fun _ => false
    png_width := fun _ => 24 }

/-- An advertisement of a window named "a" with icon identifier "b". -/
def sample_advert (wid : Nat) : yutani_msg_window_advertise :=
  { wid := wid
    flags := 0
    offsets := [0, 2, 0, 0, 0]
    strings := [97, 0, 98, 0] }

/-- The zero-size end-of-enumeration message. -/
def sentinel : yutani_msg_window_advertise :=
  { wid := 0, flags := 0, offsets := [0, 0, 0, 0, 0], strings := [] }

/-- The globals after the icon cache is set up (lines 375-394), for a panel
1024 pixels wide. -/
def sample_cached : State :=
  { State.init 1024 with
    icon_cache := [(ascii "generic", 1), (ascii "utilities-terminal", 2),
      (ascii "applications-painting", 3)]
    sprite_widths := [(3, 24), (2, 24), (1, 24)]
    next_ptr := 3 }

/-- The state `sample_cached` with a window list of the windows 2 and 5. -/
def sample_state : State :=
  { sample_cached with
    window_list := some [decode_ad (sample_advert 2), decode_ad (sample_advert 5)] }

/-! ## Auxiliary definitions -/

/-- The order in which the window list is kept. -/
def wid_le (a b : window_ad) : Prop := a.wid ≤ b.wid

instance : DecidableRel wid_le := fun a b => inferInstanceAs (Decidable (a.wid ≤ b.wid))

instance : IsTotal window_ad wid_le := ⟨fun a b => Nat.le_total a.wid b.wid⟩

instance : IsTrans window_ad wid_le := ⟨fun _ _ _ h1 h2 => Nat.le_trans h1 h2⟩

/-- The table of identifiers after the advertisements `ads` arrived as numbers
`i`, `i + 1`, ... -/
def record_wids : List yutani_msg_window_advertise → Nat → List Nat → List Nat
  | [], _, icon_wids => icon_wids
  | wa :: rest, i, icon_wids => record_wids rest (i + 1) (record_wid icon_wids i wa.wid)

/-- The state `t` differs from `s` at most in the icon cache, the sprites and
the fault flag. -/
def same_panel (s t : State) : Prop :=
  t.width = s.width ∧ t.window_list = s.window_list ∧ t.icon_lefts = s.icon_lefts ∧
    t.icon_wids = s.icon_wids ∧ t.focused_app = s.focused_app ∧ t._continue = s._continue

/-- An entry that redraw can render: its name is a string inside the blob and
its icon identifier is one of at most 75 bytes, so that every probed path and
its NUL fit the 100-byte buffer. -/
def entry_ok (ad : window_ad) : Bool :=
  ad.name.isSome &&
    (match ad.icon with
      | some ic => decide (ic.length ≤ 75)
      | none => false)

/-- The rendered width of the name of an entry. -/
def text_width (env : Env) (ad : window_ad) : Nat :=
  env.draw_string_width (ad.name.getD [])

/-- The width of an entry as an integer: 26 + text width + 20. -/
def plain_width (env : Env) (ad : window_ad) : Int :=
  26 + (text_width env ad : Int) + 20

/-- The left edges recorded by a traversal of the window list that neither
faults nor leaves the range of `int`: the table after the entries `l`,
starting at offset `i` with `j` entries recorded. -/
def entries_lefts (env : Env) : List window_ad → Int → Nat → List Int → List Int
  | [], _, _, lefts => lefts
  | ad :: rest, i, j, lefts =>
    entries_lefts env rest (i + plain_width env ad) (if j < 18 then j + 1 else j)
      (if j < 18 then lefts.set j (140 + i) else lefts)

/-- The sum of the widths of the entries. -/
def total_width (env : Env) (l : List window_ad) : Int :=
  (l.map (plain_width env)).sum

/-- The conditions under which redraw renders the list `l` from the state
`s` without fault: the list is installed, "generic" is cached, the process
has not faulted, every entry can be rendered, and the right edge of the last
entry is inside the range of `int`. -/
def renderable (env : Env) (s : State) (l : List window_ad) : Prop :=
  s.window_list = some l ∧ hashmap_get s.icon_cache (ascii "generic") ≠ 0 ∧ s.fault = false ∧
    (∀ ad ∈ l, entry_ok ad = true) ∧ 140 + total_width env l < 2147483648

/-- The horizontal position of an icon drawn by an event, if it draws one. -/
def sprite_x : Out → Option Int
  | Out.draw_sprite _ x => some x
  | Out.draw_sprite_scaled _ x => some x
  | _ => none

/-- The positions of the icons drawn, in drawing order. -/
def sprite_xs (out : List Out) : List Int :=
  out.filterMap sprite_x

/-- Whether an event is a filesystem probe. -/
def is_access : Out → Bool
  | Out.access _ => true
  | _ => false

/-- Whether an event is emitted by the traversal of the window list: a
filesystem probe or a drawing call. -/
def is_entry_out : Out → Bool
  | Out.access _ => true
  | Out.highlight _ _ => true
  | Out.draw_sprite _ _ => true
  | Out.draw_sprite_scaled _ _ => true
  | Out.draw_string _ _ _ => true
  | _ => false

/-- Whether a polled message is a CLICK in the hot zone of a panel of the
given width (line 114). -/
def hot_click (width : Int) : Option yutani_msg → Bool
  | some (yutani_msg.window_mouse_event evt) =>
    decide (evt.command = mouse_command.click ∧ evt.new_x ≥ width - 24)
  | _ => false

theorem insert_ad_nil (a : window_ad) : insert_ad [] a = [a] := rfl

theorem insert_ad_cons (b : window_ad) (l : List window_ad) (a : window_ad) :
    insert_ad (b :: l) a = if b.wid > a.wid then a :: b :: l else b :: insert_ad l a := by
  unfold insert_ad find_next
  rw [List.findIdx?_cons]
  by_cases h : b.wid > a.wid
  · simp [h, list_insert_before]
  · simp only [h, decide_False, Bool.false_eq_true, if_false, zero_add]
    rw [List.findIdx?_succ]
    cases hf : List.findIdx? (fun n => decide (n.wid > a.wid)) l 0 with
    | none => simp [list_insert]
    | some k => simp [list_insert_before]

/-- Inserting the newest advertisement commutes with the ordered insertion of
an older one. -/
theorem orderedInsert_insert_ad (x a : window_ad) (l : List window_ad) :
    List.orderedInsert wid_le x (insert_ad l a) = insert_ad (List.orderedInsert wid_le x l) a := by
  induction l with
  | nil =>
    simp only [insert_ad_nil, List.orderedInsert, insert_ad_cons]
    by_cases h : x.wid ≤ a.wid
    · have h2 : ¬ x.wid > a.wid := by omega
      simp [wid_le, h, h2, insert_ad_nil]
    · have h2 : x.wid > a.wid := by omega
      simp [wid_le, h, h2]
  | cons b l ih =>
    rw [insert_ad_cons]
    by_cases hba : b.wid > a.wid
    · by_cases hxb : x.wid ≤ b.wid
      · by_cases hxa : x.wid ≤ a.wid
        · have h2 : ¬ x.wid > a.wid := by omega
          simp [List.orderedInsert, wid_le, hba, hxb, hxa, h2, insert_ad_cons]
        · have h2 : x.wid > a.wid := by omega
          simp [List.orderedInsert, wid_le, hba, hxb, hxa, h2, insert_ad_cons]
      · have hxa : ¬ x.wid ≤ a.wid := by omega
        simp [List.orderedInsert, wid_le, hba, hxb, hxa, insert_ad_cons]
    · by_cases hxb : x.wid ≤ b.wid
      · have h2 : ¬ x.wid > a.wid := by omega
        simp [List.orderedInsert, wid_le, hba, hxb, h2, insert_ad_cons]
      · simp only [hba, if_false, List.orderedInsert, wid_le, hxb, insert_ad_cons]
        rw [← ih]

theorem insert_ad_insertionSort (ys : List window_ad) (a : window_ad) :
    insert_ad (List.insertionSort wid_le ys) a = List.insertionSort wid_le (ys ++ [a]) := by
  induction ys with
  | nil => rfl
  | cons y ys ih =>
    rw [List.cons_append, List.insertionSort, List.insertionSort, ← ih, orderedInsert_insert_ad]

theorem foldl_insert_ad (xs ys : List window_ad) :
    List.foldl insert_ad (List.insertionSort wid_le ys) xs
      = List.insertionSort wid_le (ys ++ xs) := by
  induction xs generalizing ys with
  | nil => simp
  | cons x xs ih =>
    rw [List.foldl_cons, insert_ad_insertionSort, ih]
    simp

theorem advertise_loop_eq (ads : List yutani_msg_window_advertise)
    (fin : yutani_msg_window_advertise) (rest : List yutani_msg_window_advertise)
    (hads : ∀ wa ∈ ads, wa.size ≠ 0) (hfin : fin.size = 0)
    (acc : List window_ad) (i : Nat) (icon_wids : List Nat) :
    advertise_loop (ads ++ fin :: rest) acc i icon_wids
      = some (List.foldl insert_ad acc (ads.map decode_ad), record_wids ads i icon_wids) := by
  induction ads generalizing acc i icon_wids with
  | nil => simp [advertise_loop, hfin, record_wids]
  | cons wa ads ih =>
    have h1 : wa.size ≠ 0 := hads wa (List.mem_cons_self _ _)
    have h2 : ∀ w ∈ ads, w.size ≠ 0 := fun w hw => hads w (List.mem_cons_of_mem _ hw)
    simp only [List.cons_append, advertise_loop, h1, if_false, List.map_cons, List.foldl_cons,
      record_wids]
    exact ih h2 _ _ _

/-! ## Properties of the icon cache -/

theorem hashmap_get_set_same (m : List (List Nat × Nat)) (k : List Nat) (v : Nat) :
    hashmap_get (hashmap_set m k v) k = v := by
  induction m with
  | nil => simp [hashmap_set, hashmap_get]
  | cons e rest ih =>
    obtain ⟨k1, v1⟩ := e
    unfold hashmap_set
    by_cases h : k1 = k
    · simp [h, hashmap_get]
    · simp [h, hashmap_get, ih]

theorem hashmap_get_set_other (m : List (List Nat × Nat)) (k k2 : List Nat) (v : Nat)
    (hk : k ≠ k2) : hashmap_get (hashmap_set m k v) k2 = hashmap_get m k2 := by
  induction m with
  | nil => simp [hashmap_set, hashmap_get, hk]
  | cons e rest ih =>
    obtain ⟨k1, v1⟩ := e
    unfold hashmap_set
    by_cases h : k1 = k
    · have h2 : ¬ k1 = k2 := by rw [h]; exact hk
      simp [h, hashmap_get, hk, h2]
    · rw [if_neg h]
      by_cases h2 : k1 = k2
      · simp [hashmap_get, h2]
      · simp [hashmap_get, h2, ih]

theorem same_panel_refl (s : State) : same_panel s s :=
  ⟨rfl, rfl, rfl, rfl, rfl, rfl⟩

theorem same_panel_trans {s t u : State} (h1 : same_panel s t) (h2 : same_panel t u) :
    same_panel s u := by
  obtain ⟨sw, sl, se, si, sf, sc⟩ := h1
  obtain ⟨tw, tl, te, ti, tf, tc⟩ := h2
  exact ⟨tw.trans sw, tl.trans sl, te.trans se, ti.trans si, tf.trans sf, tc.trans sc⟩

/-- The directory scan touches the icon cache and the sprites only, and emits
filesystem probes only. -/
theorem icon_probe_frame (env : Env) (s : State) (name : List Nat) (dirs : List (List Nat)) :
    same_panel s (icon_probe env s name dirs).2.1 ∧
      (icon_probe env s name dirs).2.1.fault = s.fault ∧
      ∀ o ∈ (icon_probe env s name dirs).2.2, is_access o = true := by
  induction dirs with
  | nil => exact ⟨same_panel_refl s, rfl, by simp [icon_probe]⟩
  | cons dir dirs ih =>
    unfold icon_probe
    by_cases hfit : 100 < (dir ++ ascii "/" ++ name ++ ascii ".png").length + 1
    · simp only [hfit, if_true]
      exact ⟨same_panel_refl s, trivial, by simp⟩
    · simp only [hfit, if_false]
      by_cases h : env.readable (dir ++ ascii "/" ++ name ++ ascii ".png") = true
      · simp only [h, if_true]
        exact ⟨⟨rfl, rfl, rfl, rfl, rfl, rfl⟩, rfl, by simp [is_access]⟩
      · simp only [h, if_false]
        refine ⟨ih.1, ih.2.1, ?_⟩
        intro o ho
        rcases List.mem_cons.mp ho with h1 | h1
        · rw [h1]
          rfl
        · exact ih.2.2 o h1

/-- When every probed path fits the buffer, the directory scan either finds a
file, allocates a sprite and caches it under the name, or leaves the state
alone. -/
theorem icon_probe_cache (env : Env) (s : State) (name : List Nat) (dirs : List (List Nat))
    (hfit : ∀ dir ∈ dirs, dir.length + name.length ≤ 94) :
    (∃ found s1 out, icon_probe env s name dirs = (probe.found found, s1, out) ∧ found ≠ 0 ∧
        s1.icon_cache = hashmap_set s.icon_cache name found) ∨
      (∃ out, icon_probe env s name dirs = (probe.absent, s, out)) := by
  induction dirs with
  | nil => exact Or.inr ⟨[], rfl⟩
  | cons dir dirs ih =>
    have hd := hfit dir (List.mem_cons_self _ _)
    have hlen : ¬ (100 < (dir ++ ascii "/" ++ name ++ ascii ".png").length + 1) := by
      have e1 : (ascii "/").length = 1 := rfl
      have e2 : (ascii ".png").length = 4 := rfl
      simp only [List.length_append, e1, e2]
      omega
    unfold icon_probe
    simp only [hlen, if_false]
    by_cases h : env.readable (dir ++ ascii "/" ++ name ++ ascii ".png") = true
    · left
      simp only [h, if_true]
      exact ⟨_, _, _, rfl, by simp [load_new_sprite], rfl⟩
    · simp only [h, if_false]
      rcases ih (fun d hdm => hfit d (List.mem_cons_of_mem _ hdm)) with
        ⟨found, s1, out, e, hf, hc⟩ | ⟨out, e⟩
      · left
        rw [e]
        exact ⟨found, s1, _, rfl, hf, hc⟩
      · right
        rw [e]
        exact ⟨_, rfl⟩

theorem icon_directories_fit (name : List Nat) (h : name.length ≤ 75) :
    ∀ dir ∈ icon_directories, dir.length + name.length ≤ 94 := by
  have hd : ∀ dir ∈ icon_directories, dir.length ≤ 19 := by decide
  intro dir hdir
  have := hd dir hdir
  omega

theorem icon_get_same_panel (env : Env) (s : State) (name : List Nat) :
    same_panel s (icon_get env s name).2.1 ∧
      ∀ o ∈ (icon_get env s name).2.2, is_access o = true := by
  unfold icon_get
  by_cases h : name = []
  · simp only [h, if_true]
    exact ⟨same_panel_refl s, by simp⟩
  · simp only [h, if_false]
    by_cases h0 : hashmap_get s.icon_cache name = 0
    · simp only [h0, if_true]
      have hp := icon_probe_frame env s name icon_directories
      rcases hq : icon_probe env s name icon_directories with ⟨r, s1, out⟩
      rw [hq] at hp
      cases r with
      | found f => exact ⟨hp.1, hp.2.2⟩
      | absent => exact ⟨same_panel_trans hp.1 ⟨rfl, rfl, rfl, rfl, rfl, rfl⟩, hp.2.2⟩
      | overrun => exact ⟨same_panel_trans hp.1 ⟨rfl, rfl, rfl, rfl, rfl, rfl⟩, hp.2.2⟩
    · simp only [h0, if_false]
      exact ⟨same_panel_refl s, by simp⟩

theorem icon_get_hit (env : Env) (s : State) (name : List Nat) (hname : name ≠ [])
    (h : hashmap_get s.icon_cache name ≠ 0) :
    icon_get env s name = (hashmap_get s.icon_cache name, s, []) := by
  simp [icon_get, hname, h]

/-- After a lookup of a non-empty name of at most 75 bytes the cache holds the
returned sprite under that name, the sprite is not `NULL` when "generic" is
cached, and the lookup has not faulted. -/
theorem icon_get_caches (env : Env) (s : State) (name : List Nat) (hname : name ≠ [])
    (hgen : hashmap_get s.icon_cache (ascii "generic") ≠ 0) (hlen : name.length ≤ 75) :
    hashmap_get (icon_get env s name).2.1.icon_cache name = (icon_get env s name).1 ∧
      (icon_get env s name).1 ≠ 0 ∧ (icon_get env s name).2.1.fault = s.fault := by
  by_cases h : hashmap_get s.icon_cache name = 0
  · have hfr := (icon_probe_frame env s name icon_directories).2.1
    unfold icon_get
    simp only [hname, if_false, h, if_true]
    rcases icon_probe_cache env s name icon_directories (icon_directories_fit name hlen) with
      ⟨found, s1, out, e, hf, hc⟩ | ⟨out, e⟩
    · rw [e] at hfr ⊢
      simp only
      rw [hc, hashmap_get_set_same]
      exact ⟨rfl, hf, hfr⟩
    · rw [e]
      simp only
      rw [hashmap_get_set_same]
      exact ⟨rfl, hgen, trivial⟩
  · rw [icon_get_hit env s name hname h]
    exact ⟨rfl, h, rfl⟩

/-- A lookup never disturbs a sprite that is already cached. -/
theorem icon_get_keeps (env : Env) (s : State) (n k : List Nat) (p : Nat)
    (hk : hashmap_get s.icon_cache k = p) (hp : p ≠ 0) :
    hashmap_get (icon_get env s n).2.1.icon_cache k = p := by
  by_cases hn : n = []
  · simp [icon_get, hn, hk]
  · by_cases h : hashmap_get s.icon_cache n = 0
    · have hnk : n ≠ k := by
        intro e
        rw [e, hk] at h
        exact hp h
      have hall : ∀ dirs, hashmap_get (icon_probe env s n dirs).2.1.icon_cache k = p := by
        intro dirs
        induction dirs with
        | nil => exact hk
        | cons dir dirs ih =>
          unfold icon_probe
          by_cases hfit : 100 < (dir ++ ascii "/" ++ n ++ ascii ".png").length + 1
          · simp only [hfit, if_true]
            exact hk
          · simp only [hfit, if_false]
            by_cases hr : env.readable (dir ++ ascii "/" ++ n ++ ascii ".png") = true
            · simp only [hr, if_true]
              rw [hashmap_get_set_other _ _ _ _ hnk]
              exact hk
            · simp only [hr, if_false]
              exact ih
      have hp2 := hall icon_directories
      unfold icon_get
      simp only [hn, if_false, h, if_true]
      rcases hq : icon_probe env s n icon_directories with ⟨r, s1, out⟩
      rw [hq] at hp2
      cases r with
      | found f => exact hp2
      | overrun => exact hp2
      | absent =>
        simp only
        rw [hashmap_get_set_other _ _ _ _ hnk]
        exact hp2
    · rw [icon_get_hit env s n hn h]
      exact hk

/-- A lookup that finds "generic" cached returns a sprite and does not fault,
whatever the name (of at most 75 bytes). -/
theorem icon_get_ok (env : Env) (s : State) (name : List Nat)
    (hgen : hashmap_get s.icon_cache (ascii "generic") ≠ 0) (hlen : name.length ≤ 75) :
    (icon_get env s name).1 ≠ 0 ∧ (icon_get env s name).2.1.fault = s.fault ∧
      hashmap_get (icon_get env s name).2.1.icon_cache (ascii "generic") ≠ 0 := by
  have hkeep := icon_get_keeps env s name (ascii "generic") _ rfl hgen
  by_cases hname : name = []
  · refine ⟨?_, ?_, by rw [hkeep]; exact hgen⟩
    · simp [icon_get, hname, hgen]
    · simp [icon_get, hname]
  · obtain ⟨_, h2, h3⟩ := icon_get_caches env s name hname hgen hlen
    exact ⟨h2, h3, by rw [hkeep]; exact hgen⟩

/-! ## Properties of redraw -/

theorem int32_eq (z : Int) (h0 : -2147483648 ≤ z) (h1 : z < 2147483648) : int32 z = z := by
  unfold int32
  omega

theorem uint32_eq (n : Nat) (h : n < 4294967296) : uint32 n = n :=
  Nat.mod_eq_of_lt h

theorem redraw_entries_name_none (env : Env) (ad : window_ad) (rest : List window_ad) (i : Int)
    (j : Nat) (s : State) (hn : ad.name = none) :
    redraw_entries env (ad :: rest) i j s = ({ s with fault := true }, i, j, []) := by
  unfold redraw_entries
  simp only [hn]

theorem redraw_entries_icon_none (env : Env) (ad : window_ad) (rest : List window_ad) (i : Int)
    (j : Nat) (s : State) (name : List Nat) (hn : ad.name = some name) (hic : ad.icon = none) :
    (redraw_entries env (ad :: rest) i j s).1 = { s with fault := true } ∧
      (redraw_entries env (ad :: rest) i j s).2.2.2
        = (if Nat.land ad.flags 1 ≠ 0 then
            [Out.highlight (int32 (135 + i))
              (int32 (int32 (int32 (135 + i) + entry_width env name) - 10))]
          else []) := by
  unfold redraw_entries
  simp only [hn, hic, and_self]

theorem redraw_entries_null (env : Env) (ad : window_ad) (rest : List window_ad) (i : Int)
    (j : Nat) (s : State) (name ic : List Nat) (hn : ad.name = some name)
    (hic : ad.icon = some ic) (h0 : (icon_get env s ic).1 = 0) :
    (redraw_entries env (ad :: rest) i j s).1 = { (icon_get env s ic).2.1 with fault := true } ∧
      (redraw_entries env (ad :: rest) i j s).2.2.2
        = (if Nat.land ad.flags 1 ≠ 0 then
            [Out.highlight (int32 (135 + i))
              (int32 (int32 (int32 (135 + i) + entry_width env name) - 10))]
          else []) ++ (icon_get env s ic).2.2 := by
  unfold redraw_entries
  simp only [hn, hic, h0, if_true, and_self]

/-- One step of the traversal for an entry that can be rendered. -/
theorem redraw_entries_step (env : Env) (ad : window_ad) (rest : List window_ad) (i : Int)
    (j : Nat) (s : State) (name ic : List Nat) (hn : ad.name = some name)
    (hic : ad.icon = some ic) (h0 : (icon_get env s ic).1 ≠ 0) :
    redraw_entries env (ad :: rest) i j s
      = ((redraw_entries env rest (int32 (i + entry_width env name)) (if j < 18 then j + 1 else j)
            (if j < 18 then
              { (icon_get env s ic).2.1 with
                icon_lefts := (icon_get env s ic).2.1.icon_lefts.set j (int32 (140 + i)) }
            else (icon_get env s ic).2.1)).1,
          (redraw_entries env rest (int32 (i + entry_width env name))
            (if j < 18 then j + 1 else j)
            (if j < 18 then
              { (icon_get env s ic).2.1 with
                icon_lefts := (icon_get env s ic).2.1.icon_lefts.set j (int32 (140 + i)) }
            else (icon_get env s ic).2.1)).2.1,
          (redraw_entries env rest (int32 (i + entry_width env name))
            (if j < 18 then j + 1 else j)
            (if j < 18 then
              { (icon_get env s ic).2.1 with
                icon_lefts := (icon_get env s ic).2.1.icon_lefts.set j (int32 (140 + i)) }
            else (icon_get env s ic).2.1)).2.2.1,
          (if Nat.land ad.flags 1 ≠ 0 then
            [Out.highlight (int32 (135 + i))
              (int32 (int32 (int32 (135 + i) + entry_width env name) - 10))]
          else []) ++ (icon_get env s ic).2.2 ++
          [if sprite_width (icon_get env s ic).2.1 (icon_get env s ic).1 = 24 then
              Out.draw_sprite (icon_get env s ic).1 (int32 (140 + i))
            else Out.draw_sprite_scaled (icon_get env s ic).1 (int32 (140 + i)),
            Out.draw_string (int32 (int32 (140 + i) + 26))
              (label_color (icon_get env s ic).2.1 j ad) name] ++
          (redraw_entries env rest (int32 (i + entry_width env name))
            (if j < 18 then j + 1 else j)
            (if j < 18 then
              { (icon_get env s ic).2.1 with
                icon_lefts := (icon_get env s ic).2.1.icon_lefts.set j (int32 (140 + i)) }
            else (icon_get env s ic).2.1)).2.2.2) := by
  conv_lhs => unfold redraw_entries
  simp only [hn, hic, h0, if_false]

theorem is_entry_out_of_access (o : Out) (h : is_access o = true) : is_entry_out o = true := by
  cases o <;> simp_all [is_access, is_entry_out]

theorem highlight_is_entry_out (c : Prop) [Decidable c] (a b : Int) :
    ∀ o ∈ (if c then [Out.highlight a b] else []), is_entry_out o = true := by
  intro o ho
  split at ho
  · simp only [List.mem_singleton] at ho
    rw [ho]
    rfl
  · simp at ho

/-- The traversal of the window list leaves every global except the hit-region
table, the icon cache, the sprites and the fault flag alone, and emits only
filesystem probes and drawing calls. -/
theorem redraw_entries_frame (env : Env) (l : List window_ad) (i : Int) (j : Nat) (s : State) :
    (redraw_entries env l i j s).1.width = s.width ∧
      (redraw_entries env l i j s).1.window_list = s.window_list ∧
      (redraw_entries env l i j s).1.icon_wids = s.icon_wids ∧
      (redraw_entries env l i j s).1.focused_app = s.focused_app ∧
      (redraw_entries env l i j s).1._continue = s._continue ∧
      ∀ o ∈ (redraw_entries env l i j s).2.2.2, is_entry_out o = true := by
  induction l generalizing i j s with
  | nil => simp [redraw_entries]
  | cons ad rest ih =>
    cases hn : ad.name with
    | none =>
      rw [redraw_entries_name_none env ad rest i j s hn]
      simp
    | some name =>
      cases hic : ad.icon with
      | none =>
        obtain ⟨e1, e2⟩ := redraw_entries_icon_none env ad rest i j s name hn hic
        rw [e1, e2]
        exact ⟨rfl, rfl, rfl, rfl, rfl, highlight_is_entry_out _ _ _⟩
      | some ic =>
        obtain ⟨⟨g1, g2, _, g4, g5, g6⟩, gout⟩ := icon_get_same_panel env s ic
        by_cases h0 : (icon_get env s ic).1 = 0
        · obtain ⟨e1, e2⟩ := redraw_entries_null env ad rest i j s name ic hn hic h0
          rw [e1, e2]
          refine ⟨g1, g2, g4, g5, g6, ?_⟩
          intro o ho
          rcases List.mem_append.mp ho with h | h
          · exact highlight_is_entry_out _ _ _ o h
          · exact is_entry_out_of_access o (gout o h)
        · rw [redraw_entries_step env ad rest i j s name ic hn hic h0]
          by_cases hj : j < 18
          · simp only [hj, if_true]
            obtain ⟨h1, h2, h3, h4, h5, h6⟩ := ih (int32 (i + entry_width env name)) (j + 1)
              { (icon_get env s ic).2.1 with
                icon_lefts := (icon_get env s ic).2.1.icon_lefts.set j (int32 (140 + i)) }
            refine ⟨h1.trans g1, h2.trans g2, h3.trans g4, h4.trans g5, h5.trans g6, ?_⟩
            intro o ho
            simp only [List.mem_append] at ho
            rcases ho with ((h | h) | h) | h
            · exact highlight_is_entry_out _ _ _ o h
            · exact is_entry_out_of_access o (gout o h)
            · simp only [List.mem_cons, List.mem_singleton, List.not_mem_nil, or_false] at h
              rcases h with h | h
              · rw [h]
                split <;> rfl
              · rw [h]
                rfl
            · exact h6 o h
          · simp only [hj, if_false]
            obtain ⟨h1, h2, h3, h4, h5, h6⟩ := ih (int32 (i + entry_width env name)) j
              (icon_get env s ic).2.1
            refine ⟨h1.trans g1, h2.trans g2, h3.trans g4, h4.trans g5, h5.trans g6, ?_⟩
            intro o ho
            simp only [List.mem_append] at ho
            rcases ho with ((h | h) | h) | h
            · exact highlight_is_entry_out _ _ _ o h
            · exact is_entry_out_of_access o (gout o h)
            · simp only [List.mem_cons, List.mem_singleton, List.not_mem_nil, or_false] at h
              rcases h with h | h
              · rw [h]
                split <;> rfl
              · rw [h]
                rfl
            · exact h6 o h

theorem redraw_frame (env : Env) (s : State) :
    (redraw env s).1.width = s.width ∧ (redraw env s).1.window_list = s.window_list ∧
      (redraw env s).1.icon_wids = s.icon_wids ∧ (redraw env s).1.focused_app = s.focused_app ∧
      (redraw env s).1._continue = s._continue := by
  unfold redraw
  cases hl : s.window_list with
  | none => simp [hl]
  | some l =>
    obtain ⟨h1, h2, h3, h4, h5, _⟩ := redraw_entries_frame env l 0 0 s
    simp only
    split
    · exact ⟨h1, h2.trans hl, h3, h4, h5⟩
    · split
      · exact ⟨h1, h2.trans hl, h3, h4, h5⟩
      · exact ⟨h1, h2.trans hl, h3, h4, h5⟩

/-- One call of redraw emits its entry mark, then the events of the traversal,
then one flip unless the traversal faulted. -/
theorem redraw_out (env : Env) (s : State) :
    ∃ pre, (∀ o ∈ pre, is_entry_out o = true) ∧
      ((redraw env s).2 = Out.redraw :: pre ++ [Out.flip] ∨
        ((redraw env s).2 = Out.redraw :: pre ∧ (redraw env s).1.fault = true)) := by
  unfold redraw
  cases hl : s.window_list with
  | none => exact ⟨[], by simp, Or.inl rfl⟩
  | some l =>
    have hout := (redraw_entries_frame env l 0 0 s).2.2.2.2.2
    simp only
    by_cases hf : (redraw_entries env l 0 0 s).1.fault = true
    · simp only [hf, if_true]
      exact ⟨_, hout, Or.inr ⟨rfl, trivial⟩⟩
    · simp only [hf, if_false]
      exact ⟨_, hout, Or.inl rfl⟩

theorem count_of_entry_out (pre : List Out) (h : ∀ o ∈ pre, is_entry_out o = true) (x : Out)
    (hx : is_entry_out x = false) : pre.count x = 0 := by
  rw [List.count_eq_zero]
  intro hmem
  have := h x hmem
  rw [hx] at this
  exact Bool.noConfusion this

/-- Every call of redraw emits exactly one entry mark and no session-end
request; it emits exactly one flip when it does not fault. -/
theorem redraw_counts (env : Env) (s : State) :
    (redraw env s).2.count Out.redraw = 1 ∧ (redraw env s).2.count Out.session_end = 0 ∧
      ((redraw env s).1.fault = false → (redraw env s).2.count Out.flip = 1) ∧
      ∀ wid, (redraw env s).2.count (Out.focus_window wid) = 0 := by
  obtain ⟨pre, hpre, h | ⟨h, hf⟩⟩ := redraw_out env s
  · rw [h]
    simp only [List.cons_append, List.count_cons, List.count_append, List.count_nil,
      count_of_entry_out pre hpre Out.redraw rfl, count_of_entry_out pre hpre Out.flip rfl,
      count_of_entry_out pre hpre Out.session_end rfl]
    refine ⟨by decide, by decide, fun _ => by decide, fun wid => ?_⟩
    rw [count_of_entry_out pre hpre (Out.focus_window wid) rfl]
    simp
  · rw [h, hf]
    simp only [List.count_cons, count_of_entry_out pre hpre Out.redraw rfl,
      count_of_entry_out pre hpre Out.session_end rfl]
    refine ⟨by decide, by decide, fun hc => by simp at hc, fun wid => ?_⟩
    rw [count_of_entry_out pre hpre (Out.focus_window wid) rfl]
    simp

theorem entries_lefts_length (env : Env) (l : List window_ad) (i : Int) (j : Nat)
    (lefts : List Int) : (entries_lefts env l i j lefts).length = lefts.length := by
  induction l generalizing i j lefts with
  | nil => rfl
  | cons ad rest ih =>
    simp only [entries_lefts]
    rw [ih]
    split <;> simp

theorem total_width_cons (env : Env) (ad : window_ad) (l : List window_ad) :
    total_width env (ad :: l) = plain_width env ad + total_width env l := by
  simp [total_width]

theorem entries_lefts_getD (env : Env) (l : List window_ad) (i : Int) (j : Nat)
    (lefts : List Int) (m : Nat) (hlen : lefts.length = 20) :
    (entries_lefts env l i j lefts).getD m 0
      = if j ≤ m ∧ m < min (j + l.length) 18 then 140 + i + total_width env (l.take (m - j))
        else lefts.getD m 0 := by
  induction l generalizing i j lefts with
  | nil =>
    simp only [entries_lefts, List.length_nil, add_zero]
    have : ¬ (j ≤ m ∧ m < min j 18) := by omega
    rw [if_neg this]
  | cons ad rest ih =>
    simp only [entries_lefts, List.length_cons]
    by_cases hj : j < 18
    · simp only [hj, if_true]
      rw [ih _ _ _ (by simp [hlen])]
      by_cases hm : j + 1 ≤ m ∧ m < min (j + 1 + rest.length) 18
      · have h2 : j ≤ m ∧ m < min (j + (rest.length + 1)) 18 := by omega
        have h3 : m - j = (m - (j + 1)) + 1 := by omega
        simp only [hm, h2, and_self, if_true, h3, List.take_succ_cons, total_width_cons]
        ring
      · simp only [hm, if_false]
        by_cases hmj : m = j
        · subst hmj
          have h2 : m ≤ m ∧ m < min (m + (rest.length + 1)) 18 := by omega
          simp only [h2, and_self, if_true, Nat.sub_self, List.take_zero]
          have : m < lefts.length := by omega
          simp [total_width, List.getD_eq_getElem?_getD, List.getElem?_set, this]
        · have h2 : ¬ (j ≤ m ∧ m < min (j + (rest.length + 1)) 18) := by omega
          simp only [h2, if_false]
          simp [List.getD_eq_getElem?_getD, List.getElem?_set, Ne.symm hmj]
    · simp only [hj, if_false]
      rw [ih _ _ _ hlen]
      have h1 : ¬ (j ≤ m ∧ m < min (j + rest.length) 18) := by omega
      have h2 : ¬ (j ≤ m ∧ m < min (j + (rest.length + 1)) 18) := by omega
      rw [if_neg h1, if_neg h2]


theorem plain_width_pos (env : Env) (ad : window_ad) : 46 ≤ plain_width env ad := by
  unfold plain_width
  omega

theorem total_width_nonneg (env : Env) (l : List window_ad) : 0 ≤ total_width env l := by
  induction l with
  | nil => simp [total_width]
  | cons ad rest ih =>
    rw [total_width_cons]
    have := plain_width_pos env ad
    omega

theorem total_width_append (env : Env) (l1 l2 : List window_ad) :
    total_width env (l1 ++ l2) = total_width env l1 + total_width env l2 := by
  simp [total_width]

theorem total_width_take_le_all (env : Env) (l : List window_ad) (a : Nat) :
    total_width env (l.take a) ≤ total_width env l := by
  have h := total_width_append env (l.take a) (l.drop a)
  rw [List.take_append_drop] at h
  have := total_width_nonneg env (l.drop a)
  omega


theorem sprite_xs_of_access (out : List Out) (h : ∀ o ∈ out, is_access o = true) :
    sprite_xs out = [] := by
  induction out with
  | nil => rfl
  | cons o out ih =>
    have ho := h o (List.mem_cons_self _ _)
    have hr := ih (fun x hx => h x (List.mem_cons_of_mem _ hx))
    cases o <;> simp_all [sprite_xs, sprite_x, is_access]

theorem sprite_xs_append (a b : List Out) : sprite_xs (a ++ b) = sprite_xs a ++ sprite_xs b := by
  simp [sprite_xs, List.filterMap_append]

theorem entry_ok_iff (ad : window_ad) (h : entry_ok ad = true) :
    ∃ name ic, ad.name = some name ∧ ad.icon = some ic ∧ ic.length ≤ 75 := by
  unfold entry_ok at h
  cases hn : ad.name with
  | none => simp [hn] at h
  | some name =>
    cases hic : ad.icon with
    | none => simp [hic] at h
    | some ic =>
      simp only [hn, hic, Option.isSome_some, Bool.true_and, decide_eq_true_eq] at h
      exact ⟨name, ic, rfl, rfl, h⟩

/-- A traversal over entries that can be rendered, started without fault with
"generic" cached and with all boundaries inside the range of `int`, does not
fault, and records and draws what the sums of the entry widths say. -/
theorem redraw_entries_ok (env : Env) (l : List window_ad) (i : Int) (j : Nat) (s : State)
    (hgen : hashmap_get s.icon_cache (ascii "generic") ≠ 0) (hfault : s.fault = false)
    (hok : ∀ ad ∈ l, entry_ok ad = true) (hi : 0 ≤ i)
    (hfit : 140 + i + total_width env l < 2147483648) :
    (redraw_entries env l i j s).1.fault = false ∧
      (redraw_entries env l i j s).1.icon_lefts = entries_lefts env l i j s.icon_lefts ∧
      (redraw_entries env l i j s).2.1 = i + total_width env l ∧
      (redraw_entries env l i j s).2.2.1 = (if j ≤ 18 then min (j + l.length) 18 else j) ∧
      sprite_xs (redraw_entries env l i j s).2.2.2
        = (List.range l.length).map (fun m => 140 + i + total_width env (l.take m)) := by
  induction l generalizing i j s with
  | nil =>
    refine ⟨hfault, rfl, by simp [redraw_entries, total_width], ?_, by simp [redraw_entries, sprite_xs]⟩
    simp only [redraw_entries, List.length_nil, add_zero]
    split <;> omega
  | cons ad rest ih =>
    obtain ⟨name, ic, hn, hic, hlen⟩ := entry_ok_iff ad (hok ad (List.mem_cons_self _ _))
    obtain ⟨h0, hf, hg⟩ := icon_get_ok env s ic hgen hlen
    obtain ⟨⟨_, _, g3, _, _, _⟩, gout⟩ := icon_get_same_panel env s ic
    have hrest := total_width_nonneg env rest
    rw [total_width_cons] at hfit
    have hpw : plain_width env ad = 26 + (env.draw_string_width name : Int) + 20 := by
      simp [plain_width, text_width, hn]
    have hw : entry_width env name = plain_width env ad := by
      rw [hpw]
      unfold entry_width
      have b1 : env.draw_string_width name < 4294967296 := by omega
      rw [uint32_eq _ b1]
      have b2 : 26 + env.draw_string_width name + 20 < 4294967296 := by omega
      rw [uint32_eq _ b2]
      push_cast
      exact int32_eq _ (by omega) (by omega)
    have hpos := plain_width_pos env ad
    have hx : int32 (140 + i) = 140 + i := int32_eq _ (by omega) (by omega)
    have hnext : int32 (i + plain_width env ad) = i + plain_width env ad :=
      int32_eq _ (by omega) (by omega)
    rw [redraw_entries_step env ad rest i j s name ic hn hic h0, hw, hx, hnext]
    simp only [sprite_xs_append]
    rw [sprite_xs_of_access _ gout]
    have hhl : sprite_xs (if Nat.land ad.flags 1 ≠ 0 then
        [Out.highlight (int32 (135 + i)) (int32 (int32 (int32 (135 + i) + plain_width env ad) - 10))]
        else []) = [] := by
      split <;> simp [sprite_xs, sprite_x]
    have hdr : sprite_xs [if sprite_width (icon_get env s ic).2.1 (icon_get env s ic).1 = 24 then
          Out.draw_sprite (icon_get env s ic).1 (140 + i)
        else Out.draw_sprite_scaled (icon_get env s ic).1 (140 + i),
        Out.draw_string (int32 (140 + i + 26))
          (label_color (icon_get env s ic).2.1 j ad) name] = [140 + i] := by
      split <;> simp [sprite_xs, sprite_x]
    rw [hhl, hdr]
    have hrange : (List.range (ad :: rest).length).map
        (fun m => 140 + i + total_width env ((ad :: rest).take m))
        = (140 + i) :: (List.range rest.length).map
          (fun m => 140 + (i + plain_width env ad) + total_width env (rest.take m)) := by
      rw [List.length_cons, List.range_succ_eq_map]
      simp only [List.map_cons, List.take_zero, List.map_map, List.cons.injEq]
      refine ⟨by simp [total_width], ?_⟩
      apply List.map_congr_left
      intro m _
      simp only [Function.comp, List.take_succ_cons, total_width_cons]
      ring
    rw [hrange]
    simp only [entries_lefts, total_width_cons, List.length_cons]
    by_cases hj : j < 18
    · simp only [hj, if_true]
      obtain ⟨h1, h2, h3, h4, h5⟩ := ih (i + plain_width env ad) (j + 1)
        { (icon_get env s ic).2.1 with
          icon_lefts := (icon_get env s ic).2.1.icon_lefts.set j (140 + i) }
        hg (by rw [← hfault]; exact hf) (fun a ha => hok a (List.mem_cons_of_mem _ ha))
        (by omega) (by omega)
      refine ⟨h1, ?_, ?_, ?_, ?_⟩
      · rw [h2, g3]
      · rw [h3]
        ring
      · rw [h4]
        have : j + 1 ≤ 18 := hj
        have : j ≤ 18 := by omega
        simp only [*, if_true]
        omega
      · rw [h5]
        simp
    · simp only [hj, if_false]
      obtain ⟨h1, h2, h3, h4, h5⟩ := ih (i + plain_width env ad) j (icon_get env s ic).2.1
        hg (by rw [← hfault]; exact hf) (fun a ha => hok a (List.mem_cons_of_mem _ ha))
        (by omega) (by omega)
      refine ⟨h1, ?_, ?_, ?_, ?_⟩
      · rw [h2, g3]
      · rw [h3]
        ring
      · rw [h4]
        split
        · omega
        · rfl
      · rw [h5]
        simp

/-- A redraw under the conditions of `renderable` does not fault, writes the
boundaries recorded by the traversal, the sentinel and the terminating zero,
draws each icon at its left edge and flips once. -/
theorem redraw_ok (env : Env) (s : State) (l : List window_ad) (h : renderable env s l) :
    (redraw env s).1.fault = false ∧
      (redraw env s).1.icon_lefts
        = ((entries_lefts env l 0 0 s.icon_lefts).set (min l.length 18)
            (140 + total_width env l)).set (min l.length 18 + 1) 0 ∧
      sprite_xs (redraw env s).2
        = (List.range l.length).map (fun m => 140 + total_width env (l.take m)) ∧
      (redraw env s).2.count Out.flip = 1 := by
  obtain ⟨hl, hgen, hfault, hok, hfit⟩ := h
  obtain ⟨h1, h2, h3, h4, h5⟩ :=
    redraw_entries_ok env l 0 0 s hgen hfault hok (le_refl 0) (by omega)
  have hcount := (redraw_counts env s).2.2.1
  have hnn := total_width_nonneg env l
  have hres : redraw env s
      = ({ (redraw_entries env l 0 0 s).1 with
            icon_lefts := ((redraw_entries env l 0 0 s).1.icon_lefts.set (min l.length 18)
              (140 + total_width env l)).set (min l.length 18 + 1) 0 },
          Out.redraw :: (redraw_entries env l 0 0 s).2.2.2 ++ [Out.flip]) := by
    unfold redraw
    simp only [hl, h1, Bool.false_eq_true, if_false]
    simp only [Nat.zero_le, if_true, zero_add] at h3 h4
    have hk : min l.length 18 < 19 := by omega
    rw [h4, h3, int32_eq _ (by omega) (by omega)]
    simp only [hk, if_true]
  have hf : (redraw env s).1.fault = false := by
    rw [hres]
    exact h1
  refine ⟨hf, ?_, ?_, hcount hf⟩
  · rw [hres, h2]
  · rw [hres]
    simp only [List.cons_append, sprite_xs, List.filterMap_cons, List.filterMap_append, sprite_x,
      List.filterMap_nil, List.append_nil]
    have := h5
    simp only [sprite_xs, zero_add] at this
    rw [this]
    apply List.map_congr_left
    intro m _
    ring

theorem redraw_lefts_getD (env : Env) (s : State) (l : List window_ad)
    (h : renderable env s l) (hlen : s.icon_lefts.length = 20) (m : Nat) :
    (redraw env s).1.icon_lefts.getD m 0
      = if m < min l.length 18 then 140 + total_width env (l.take m)
        else if m = min l.length 18 then 140 + total_width env l
        else if m = min l.length 18 + 1 then 0
        else s.icon_lefts.getD m 0 := by
  rw [(redraw_ok env s l h).2.1]
  have hE := entries_lefts_length env l 0 0 s.icon_lefts
  have hk : min l.length 18 ≤ 18 := by omega
  simp only [List.getD_eq_getElem?_getD, List.getElem?_set, List.length_set, hE, hlen]
  by_cases h1 : m < min l.length 18
  · have a1 : ¬ (min l.length 18 + 1 = m) := by omega
    have a2 : ¬ (min l.length 18 = m) := by omega
    rw [if_neg a1, if_neg a2, if_pos h1, ← List.getD_eq_getElem?_getD,
      entries_lefts_getD env l 0 0 s.icon_lefts m hlen]
    have a3 : 0 ≤ m ∧ m < min (0 + l.length) 18 := by omega
    rw [if_pos a3]
    simp
  · rw [if_neg h1]
    by_cases h2 : m = min l.length 18
    · have a1 : ¬ (min l.length 18 + 1 = m) := by omega
      have a2 : min l.length 18 < 20 := by omega
      rw [if_neg a1, if_pos h2.symm, if_pos a2, if_pos h2]
      rfl
    · rw [if_neg h2]
      by_cases h3 : m = min l.length 18 + 1
      · have a2 : min l.length 18 + 1 < 20 := by omega
        rw [if_pos h3.symm, if_pos a2, if_pos h3]
        rfl
      · rw [if_neg h3, if_neg (Ne.symm h3), if_neg (Ne.symm h2), ← List.getD_eq_getElem?_getD,
          entries_lefts_getD env l 0 0 s.icon_lefts m hlen]
        have a3 : ¬ (0 ≤ m ∧ m < min (0 + l.length) 18) := by omega
        rw [if_neg a3, List.getD_eq_getElem?_getD]

/-! ## Properties of the refresh as a whole -/

/-- Insertion sort keeps the advertisements of one identifier in the order
in which they stand in the input. -/
theorem insertionSort_filter_wid (l : List window_ad) (w : Nat) :
    (List.insertionSort wid_le l).filter (fun a => decide (a.wid = w))
      = l.filter (fun a => decide (a.wid = w)) := by
  have hpw : (l.filter (fun a => decide (a.wid = w))).Pairwise wid_le := by
    rw [List.pairwise_iff_forall_sublist]
    intro a b hab
    have ha : a ∈ l.filter (fun a => decide (a.wid = w)) := hab.subset (by simp)
    have hb : b ∈ l.filter (fun a => decide (a.wid = w)) := hab.subset (by simp)
    simp only [List.mem_filter, decide_eq_true_eq] at ha hb
    show a.wid ≤ b.wid
    omega
  have hsub := (List.sublist_insertionSort hpw (List.filter_sublist l)).filter
    (fun a => decide (a.wid = w))
  rw [List.filter_filter] at hsub
  simp only [Bool.and_self] at hsub
  have hlen := ((List.perm_insertionSort wid_le l).filter (fun a => decide (a.wid = w))).length_eq
  exact (hsub.eq_of_length hlen.symm).symm

/-- A refresh ends with the redraw of the state that holds the new list and
the new identifier table. -/
theorem update_window_list_redraw (env : Env) (s : State)
    (ads : List yutani_msg_window_advertise) (fin : yutani_msg_window_advertise)
    (rest : List yutani_msg_window_advertise)
    (hads : ∀ wa ∈ ads, wa.size ≠ 0) (hfin : fin.size = 0) :
    update_window_list env s (ads ++ fin :: rest)
      = some ((redraw env { s with
            window_list := some (List.insertionSort wid_le (ads.map decode_ad))
            icon_wids := record_wids ads 0 s.icon_wids }).1,
          Out.query_windows :: (redraw env { s with
            window_list := some (List.insertionSort wid_le (ads.map decode_ad))
            icon_wids := record_wids ads 0 s.icon_wids }).2) := by
  unfold update_window_list
  rw [advertise_loop_eq ads fin rest hads hfin]
  have hf := foldl_insert_ad (ads.map decode_ad) []
  simp only [List.insertionSort, List.nil_append] at hf
  rw [hf]

/-! ## Properties of the dispatcher loop -/

theorem advertise_loop_some (adverts : List yutani_msg_window_advertise)
    (h : ∃ wa ∈ adverts, wa.size = 0) (acc : List window_ad) (i : Nat) (icon_wids : List Nat) :
    ∃ r, advertise_loop adverts acc i icon_wids = some r := by
  induction adverts generalizing acc i icon_wids with
  | nil =>
    obtain ⟨wa, hwa, _⟩ := h
    simp at hwa
  | cons wa rest ih =>
    unfold advertise_loop
    by_cases h0 : wa.size = 0
    · simp [h0]
    · simp only [h0, if_false]
      apply ih
      obtain ⟨w, hw, hz⟩ := h
      rcases List.mem_cons.mp hw with e | e
      · rw [e] at hz
        exact absurd hz h0
      · exact ⟨w, e, hz⟩

theorem click_scan_count_session_end (s : State) (x : Int) (n i : Nat) :
    (click_scan s x n i).count Out.session_end = 0 := by
  induction n generalizing i with
  | zero => simp [click_scan]
  | succ n ih =>
    unfold click_scan
    split
    · split <;> simp
    · exact ih _

theorem set_focused_quiet (env : Env) (s : State) (i : Int) :
    (set_focused env s i).1.width = s.width ∧ (set_focused env s i).1._continue = s._continue ∧
      (set_focused env s i).2.count Out.session_end = 0 := by
  unfold set_focused
  by_cases h : s.focused_app = i
  · simp [h]
  · obtain ⟨h1, _, _, _, h5⟩ := redraw_frame env { s with focused_app := i }
    simp only [ne_eq, h, not_false_eq_true, if_true]
    exact ⟨h1, h5, (redraw_counts env _).2.1⟩

/-- A pointer event other than a CLICK in the hot zone leaves the width and the
continuation flag alone and requests no session end. -/
theorem panel_check_click_quiet (env : Env) (s : State) (evt : yutani_msg_window_mouse_event)
    (h : ¬ (evt.command = mouse_command.click ∧ evt.new_x ≥ s.width - 24)) :
    (panel_check_click env s evt).1.width = s.width ∧
      (panel_check_click env s evt).1._continue = s._continue ∧
      (panel_check_click env s evt).2.count Out.session_end = 0 := by
  unfold panel_check_click
  cases hc : evt.command with
  | click =>
    have hx : ¬ evt.new_x ≥ s.width - 24 := fun hx => h ⟨hc, hx⟩
    simp only [hx, if_false, true_and]
    exact click_scan_count_session_end s _ _ _
  | move =>
    simp only
    split
    · cases hs : hover_scan s evt.new_x 18 0 with
      | none => simp
      | some i => exact set_focused_quiet env s i
    · exact set_focused_quiet env s (-1)
  | enter =>
    simp only
    split
    · cases hs : hover_scan s evt.new_x 18 0 with
      | none => simp
      | some i => exact set_focused_quiet env s i
    · exact set_focused_quiet env s (-1)
  | leave => exact set_focused_quiet env s (-1)
  | other => simp

theorem update_window_list_quiet (env : Env) (s : State)
    (adverts : List yutani_msg_window_advertise) (h : ∃ wa ∈ adverts, wa.size = 0) :
    ∃ t out, update_window_list env s adverts = some (t, out) ∧ t.width = s.width ∧
      t._continue = s._continue ∧ out.count Out.session_end = 0 := by
  unfold update_window_list
  obtain ⟨⟨l, w⟩, hr⟩ := advertise_loop_some adverts h [] 0 s.icon_wids
  rw [hr]
  obtain ⟨h1, _, _, _, h5⟩ := redraw_frame env { s with window_list := some l, icon_wids := w }
  refine ⟨_, _, rfl, h1, h5, ?_⟩
  rw [List.count_cons, (redraw_counts env _).2.1]
  rfl

theorem dispatch_quiet (env : Env) (s : State) (m : Option yutani_msg)
    (hterm : ∀ adverts, m = some (yutani_msg.notify adverts) → ∃ wa ∈ adverts, wa.size = 0)
    (hm : hot_click s.width m = false) :
    ∃ t out, dispatch env s m = some (t, out) ∧ t.width = s.width ∧
      t._continue = s._continue ∧ out.count Out.session_end = 0 := by
  match m with
  | none => exact ⟨s, [], rfl, rfl, rfl, rfl⟩
  | some yutani_msg.other => exact ⟨s, [], rfl, rfl, rfl, rfl⟩
  | some (yutani_msg.notify adverts) =>
    exact update_window_list_quiet env s adverts (hterm adverts rfl)
  | some (yutani_msg.window_mouse_event evt) =>
    have hq : ¬ (evt.command = mouse_command.click ∧ evt.new_x ≥ s.width - 24) := by
      simpa [hot_click] using hm
    obtain ⟨h1, h2, h3⟩ := panel_check_click_quiet env s evt (by simpa using hq)
    exact ⟨_, _, rfl, h1, h2, h3⟩

theorem event_loop_stopped (env : Env) (msgs : List (Option yutani_msg)) (s : State)
    (h : ¬ (s._continue = true ∧ s.fault = false)) : event_loop env msgs s = some (s, []) := by
  cases msgs with
  | nil => rfl
  | cons m ms => simp only [event_loop, h, if_false]

theorem panel_check_click_hot (env : Env) (s : State) (evt : yutani_msg_window_mouse_event)
    (hc : evt.command = mouse_command.click) (hx : evt.new_x ≥ s.width - 24) :
    panel_check_click env s evt = ({ s with _continue := false }, [Out.session_end]) := by
  simp [panel_check_click, hc, hx]

/-- The dispatcher loop of a run that does not fault runs up to the first
CLICK in the hot zone, which it answers with the only session-end request. -/
theorem event_loop_first_hot (env : Env) (msgs : List (Option yutani_msg)) (s : State)
    (hc : s._continue = true)
    (hterm : ∀ adverts, some (yutani_msg.notify adverts) ∈ msgs → ∃ wa ∈ adverts, wa.size = 0)
    (hok : ∀ r, event_loop env msgs s = some r → r.1.fault = false)
    (hhot : ∃ m ∈ msgs, hot_click s.width m = true) :
    ∃ before evt after u pre,
      msgs = before ++ some (yutani_msg.window_mouse_event evt) :: after ∧
      evt.command = mouse_command.click ∧ evt.new_x ≥ u.width - 24 ∧
      event_loop env before s = some (u, pre) ∧ u._continue = true ∧ u.width = s.width ∧
      pre.count Out.session_end = 0 ∧
      event_loop env msgs s = some ({ u with _continue := false }, pre ++ [Out.session_end]) := by
  induction msgs generalizing s with
  | nil =>
    obtain ⟨m, hm, _⟩ := hhot
    simp at hm
  | cons m ms ih =>
    have hsf : s.fault = false := by
      by_cases hf : s.fault = false
      · exact hf
      · exact hok _ (event_loop_stopped env (m :: ms) s (fun hh => hf hh.2))
    by_cases hm : hot_click s.width m = true
    · match m, hm with
      | some (yutani_msg.window_mouse_event evt), hm =>
        simp only [hot_click, decide_eq_true_eq] at hm
        refine ⟨[], evt, ms, s, [], rfl, hm.1, hm.2, rfl, hc, rfl, rfl, ?_⟩
        simp only [event_loop, hc, hsf, and_self, if_true, dispatch,
          panel_check_click_hot env s evt hm.1 hm.2]
        rw [event_loop_stopped env ms _ (fun hh => Bool.noConfusion hh.1)]
        rfl
    · have hm2 : hot_click s.width m = false := by simpa using hm
      obtain ⟨t, out1, hd, hw, hcont, hcount⟩ := dispatch_quiet env s m
        (fun adverts e => hterm adverts (by rw [e]; exact List.mem_cons_self _ _)) hm2
      have hhot2 : ∃ x ∈ ms, hot_click t.width x = true := by
        obtain ⟨x, hx, hxh⟩ := hhot
        rcases List.mem_cons.mp hx with e | e
        · rw [e] at hxh
          exact absurd hxh hm
        · exact ⟨x, e, by rw [hw]; exact hxh⟩
      have hok2 : ∀ r, event_loop env ms t = some r → r.1.fault = false := by
        intro r hr
        apply hok (r.1, out1 ++ r.2)
        simp only [event_loop, hc, hsf, and_self, if_true, hd, hr]
      obtain ⟨before, evt, after, u, pre, e1, e2, e3, e4, e5, ew, e6, e7⟩ :=
        ih t (by rw [hcont]; exact hc)
          (fun adverts hmem => hterm adverts (List.mem_cons_of_mem _ hmem)) hok2 hhot2
      refine ⟨m :: before, evt, after, u, out1 ++ pre, by rw [e1]; rfl, e2, e3, ?_, e5,
        ew.trans hw, ?_, ?_⟩
      · simp only [event_loop, hc, hsf, and_self, if_true, hd, e4]
      · rw [List.count_append, hcount, e6]
      · simp only [event_loop, hc, hsf, and_self, if_true, hd, e7, List.append_assoc]

/-! ## Properties of the pointer scans -/

/-- The CLICK scan stops at the first interval that contains x. -/
theorem click_scan_hit (s : State) (x : Int) (i : Nat)
    (hlow : ∀ a, a < i → ¬ (x ≥ s.icon_lefts.getD a 0 ∧ x < s.icon_lefts.getD (a + 1) 0))
    (hi : x ≥ s.icon_lefts.getD i 0 ∧ x < s.icon_lefts.getD (i + 1) 0)
    (n m : Nat) (hm : m ≤ i) (hn : i < m + n) :
    click_scan s x n m
      = (if s.icon_wids.getD i 0 ≠ 0 then [Out.focus_window (s.icon_wids.getD i 0)] else []) := by
  induction n generalizing m with
  | zero => omega
  | succ n ih =>
    unfold click_scan
    by_cases hmi : m = i
    · rw [hmi, if_pos hi]
    · rw [if_neg (hlow m (by omega))]
      exact ih (m + 1) (by omega) (by omega)

/-- The MOVE scan stops at the first interval that contains x when no boundary
up to it is zero. -/
theorem hover_scan_hit (s : State) (x : Int) (i : Nat)
    (hnz : ∀ a, a ≤ i → s.icon_lefts.getD a 0 ≠ 0)
    (hlow : ∀ a, a < i → ¬ (x ≥ s.icon_lefts.getD a 0 ∧ x < s.icon_lefts.getD (a + 1) 0))
    (hi : x ≥ s.icon_lefts.getD i 0 ∧ x < s.icon_lefts.getD (i + 1) 0)
    (n m : Nat) (hm : m ≤ i) (hn : i < m + n) :
    hover_scan s x n m = some (i : Int) := by
  induction n generalizing m with
  | zero => omega
  | succ n ih =>
    unfold hover_scan
    rw [if_neg (hnz m hm)]
    by_cases hmi : m = i
    · rw [hmi, if_pos hi]
    · rw [if_neg (hlow m (by omega))]
      exact ih (m + 1) (by omega) (by omega)

/-- The MOVE scan clears the hover target when it meets a zero boundary
before any interval that contains x and before its last iteration. -/
theorem hover_scan_miss (s : State) (x : Int) (z : Nat)
    (hnz : ∀ a, a < z → s.icon_lefts.getD a 0 ≠ 0)
    (hlow : ∀ a, a < z → ¬ (x ≥ s.icon_lefts.getD a 0 ∧ x < s.icon_lefts.getD (a + 1) 0))
    (hz : s.icon_lefts.getD z 0 = 0)
    (n m : Nat) (hm : m ≤ z) (hn : z < m + n) :
    hover_scan s x n m = some (-1) := by
  induction n generalizing m with
  | zero => omega
  | succ n ih =>
    unfold hover_scan
    by_cases hmz : m = z
    · rw [hmz, if_pos hz]
    · rw [if_neg (hnz m (by omega)), if_neg (hlow m (by omega))]
      exact ih (m + 1) (by omega) (by omega)

/-- The boundaries recorded by redraw are at least 140 and strictly
increasing up to the sentinel. -/
theorem redraw_lefts_increasing (env : Env) (s : State) (l : List window_ad)
    (h : renderable env s l) (hlen : s.icon_lefts.length = 20) :
    (∀ a, a ≤ min l.length 18 → 140 ≤ (redraw env s).1.icon_lefts.getD a 0) ∧
      (∀ a, a < min l.length 18 →
        (redraw env s).1.icon_lefts.getD a 0 < (redraw env s).1.icon_lefts.getD (a + 1) 0) := by
  have hget := redraw_lefts_getD env s l h hlen
  constructor
  · intro a ha
    rw [hget]
    by_cases h1 : a < min l.length 18
    · rw [if_pos h1]
      have := total_width_nonneg env (l.take a)
      omega
    · have h2 : a = min l.length 18 := by omega
      rw [if_neg h1, if_pos h2]
      have := total_width_nonneg env l
      omega
  · intro a ha
    have hal : a < l.length := by omega
    have hstep : total_width env (l.take (a + 1))
        = total_width env (l.take a) + plain_width env (l.get ⟨a, hal⟩) := by
      rw [List.take_succ, total_width_append]
      simp [List.getElem?_eq_getElem hal, total_width]
    have hpos := plain_width_pos env (l.get ⟨a, hal⟩)
    rw [hget a, if_pos ha, hget (a + 1)]
    by_cases h1 : a + 1 < min l.length 18
    · rw [if_pos h1, hstep]
      omega
    · have h2 : a + 1 = min l.length 18 := by omega
      rw [if_neg h1, if_pos h2]
      have := total_width_take_le_all env l (a + 1)
      omega

/-- In a table recorded by redraw, a point of interval i lies in no earlier
interval. -/
theorem redraw_lefts_first (env : Env) (s : State) (l : List window_ad)
    (h : renderable env s l) (hlen : s.icon_lefts.length = 20) (x : Int) (i : Nat)
    (hi : i < min l.length 18) (hx : (redraw env s).1.icon_lefts.getD i 0 ≤ x) :
    ∀ a, a < i → ¬ (x ≥ (redraw env s).1.icon_lefts.getD a 0 ∧
      x < (redraw env s).1.icon_lefts.getD (a + 1) 0) := by
  obtain ⟨_, hinc⟩ := redraw_lefts_increasing env s l h hlen
  have hmono : ∀ d a, a + d < min l.length 18 + 1 →
      (redraw env s).1.icon_lefts.getD a 0 ≤ (redraw env s).1.icon_lefts.getD (a + d) 0 := by
    intro d
    induction d with
    | zero => intro a _; exact le_refl _
    | succ d ih =>
      intro a ha
      have h1 := ih a (by omega)
      have h2 := hinc (a + d) (by omega)
      have h3 : a + (d + 1) = a + d + 1 := by omega
      rw [h3]
      omega
  intro a ha hcon
  have hm := hmono (i - (a + 1)) (a + 1) (by omega)
  have e : a + 1 + (i - (a + 1)) = i := by omega
  rw [e] at hm
  omega

theorem record_wid_length (w : List Nat) (i wid : Nat) :
    (record_wid w i wid).length = w.length := by
  unfold record_wid
  split <;> simp

theorem record_wids_length (ads : List yutani_msg_window_advertise) (i : Nat) (w : List Nat) :
    (record_wids ads i w).length = w.length := by
  induction ads generalizing i w with
  | nil => rfl
  | cons wa rest ih =>
    simp only [record_wids]
    rw [ih, record_wid_length]

theorem record_wid_below (w : List Nat) (i wid j : Nat) (hj : j < i) :
    (record_wid w i wid).getD j 0 = w.getD j 0 := by
  unfold record_wid
  split
  · have h1 : ¬ (i + 1 = j) := by omega
    have h2 : ¬ (i = j) := by omega
    simp [List.getD_eq_getElem?_getD, List.getElem?_set, h1, h2]
  · rfl

theorem record_wids_below (ads : List yutani_msg_window_advertise) (i : Nat) (w : List Nat)
    (j : Nat) (hj : j < i) : (record_wids ads i w).getD j 0 = w.getD j 0 := by
  induction ads generalizing i w with
  | nil => rfl
  | cons wa rest ih =>
    simp only [record_wids]
    rw [ih (i + 1) _ (by omega), record_wid_below w i wa.wid j hj]

/-- The identifier table holds, at position i0 + m, the identifier of the
m-th advertisement to arrive. -/
theorem record_wids_getD (ads : List yutani_msg_window_advertise) (i0 : Nat) (w : List Nat)
    (hw : w.length = 20) (hn : i0 + ads.length ≤ 19) (m : Nat) (hm : m < ads.length) :
    (record_wids ads i0 w).getD (i0 + m) 0 = (ads.map (fun wa => wa.wid)).getD m 0 := by
  induction ads generalizing i0 w m with
  | nil => simp at hm
  | cons wa rest ih =>
    simp only [record_wids, List.length_cons] at hn ⊢
    cases m with
    | zero =>
      rw [add_zero, record_wids_below rest (i0 + 1) _ i0 (by omega)]
      have h1 : i0 < 19 := by omega
      have h2 : ¬ (i0 + 1 = i0) := by omega
      have h3 : i0 < w.length := by omega
      simp [record_wid, h1, List.getD_eq_getElem?_getD, List.getElem?_set, h2, h3]
    | succ m =>
      have e : i0 + (m + 1) = (i0 + 1) + m := by omega
      rw [e, ih (i0 + 1) _ (by rw [record_wid_length, hw]) (by omega) m
        (by simpa using hm)]
      simp

theorem set_focused_counts (env : Env) (s : State) (i : Int) :
    (set_focused env s i).2.count Out.redraw
        = (if (set_focused env s i).1.focused_app = s.focused_app then 0 else 1) ∧
      (set_focused env s i).1.focused_app = i ∧
      ((set_focused env s i).1.fault = false →
        (set_focused env s i).2.count Out.flip = (set_focused env s i).2.count Out.redraw) := by
  unfold set_focused
  by_cases h : s.focused_app = i
  · simp [h]
  · have hf := (redraw_frame env { s with focused_app := i }).2.2.2.1
    obtain ⟨c1, _, c3, _⟩ := redraw_counts env { s with focused_app := i }
    simp only [ne_eq, h, not_false_eq_true, if_true, hf, c1]
    have : ¬ (i = s.focused_app) := fun e => h e.symm
    refine ⟨by simp [this], trivial, fun hnf => c3 hnf⟩

theorem click_scan_counts (s : State) (x : Int) (n i : Nat) :
    (click_scan s x n i).count Out.redraw = 0 ∧ (click_scan s x n i).count Out.flip = 0 := by
  induction n generalizing i with
  | zero => simp [click_scan]
  | succ n ih =>
    unfold click_scan
    split
    · split <;> simp
    · exact ih _

/-! ## Properties that join refresh, redraw and pointer events -/

theorem total_width_perm (env : Env) (l1 l2 : List window_ad) (h : l1.Perm l2) :
    total_width env l1 = total_width env l2 :=
  (h.map (plain_width env)).sum_eq

/-- The state in which a refresh calls redraw satisfies the conditions of
`renderable` when the refreshed state has "generic" cached and has not
faulted, every advertisement decodes to an entry that can be rendered, and
the entries fit the range of `int`. -/
theorem update_window_list_renderable (env : Env) (s : State)
    (ads : List yutani_msg_window_advertise)
    (hgen : hashmap_get s.icon_cache (ascii "generic") ≠ 0) (hfault : s.fault = false)
    (hok : ∀ wa ∈ ads, entry_ok (decode_ad wa) = true)
    (hfit : 140 + total_width env (ads.map decode_ad) < 2147483648) :
    renderable env
      { s with window_list := some (List.insertionSort wid_le (ads.map decode_ad))
               icon_wids := record_wids ads 0 s.icon_wids }
      (List.insertionSort wid_le (ads.map decode_ad)) := by
  refine ⟨rfl, hgen, hfault, ?_, ?_⟩
  · intro ad had
    rw [List.mem_insertionSort] at had
    obtain ⟨wa, hwa, e⟩ := List.mem_map.mp had
    rw [← e]
    exact hok wa hwa
  · rw [total_width_perm env _ _ (List.perm_insertionSort wid_le _)]
    exact hfit

/-- In the table recorded by a redraw without fault, a MOVE or ENTER inside
the height band at a point of the recorded interval i sets the hover target
to i; and when at most 16 windows are listed, a point in no recorded interval
clears it. -/
theorem move_resolves_recorded_entry (env : Env) (s : State) (l : List window_ad)
    (hr : renderable env s l) (hlen : s.icon_lefts.length = 20)
    (evt : yutani_msg_window_mouse_event)
    (hcmd : evt.command = mouse_command.move ∨ evt.command = mouse_command.enter)
    (hy : evt.new_y < PANEL_HEIGHT) :
    (∀ i, i < min l.length 18 →
        (redraw env s).1.icon_lefts.getD i 0 ≤ evt.new_x →
        evt.new_x < (redraw env s).1.icon_lefts.getD (i + 1) 0 →
        (panel_check_click env (redraw env s).1 evt).1.focused_app = i) ∧
      (l.length ≤ 16 →
        (∀ i, i < l.length → ¬ ((redraw env s).1.icon_lefts.getD i 0 ≤ evt.new_x ∧
          evt.new_x < (redraw env s).1.icon_lefts.getD (i + 1) 0)) →
        (panel_check_click env (redraw env s).1 evt).1.focused_app = -1) := by
  obtain ⟨hge, _⟩ := redraw_lefts_increasing env s l hr hlen
  have hget := redraw_lefts_getD env s l hr hlen
  constructor
  · intro i hi h1 h2
    have hs := hover_scan_hit (redraw env s).1 evt.new_x i
      (fun a ha => by have := hge a (by omega); omega)
      (redraw_lefts_first env s l hr hlen evt.new_x i hi h1) ⟨h1, h2⟩ 18 0 (by omega) (by omega)
    unfold panel_check_click
    rcases hcmd with hc | hc <;>
      simp only [hc, hy, if_true, hs] <;>
      exact (set_focused_counts env _ _).2.1
  · intro hn hout
    have hk : min l.length 18 = l.length := by omega
    have hz : (redraw env s).1.icon_lefts.getD (l.length + 1) 0 = 0 := by
      rw [hget]
      have a1 : ¬ (l.length + 1 < min l.length 18) := by omega
      have a2 : ¬ (l.length + 1 = min l.length 18) := by omega
      have a3 : l.length + 1 = min l.length 18 + 1 := by omega
      rw [if_neg a1, if_neg a2, if_pos a3]
    have hs := hover_scan_miss (redraw env s).1 evt.new_x (l.length + 1)
      (fun a ha => by have := hge a (by omega); omega)
      (fun a ha => by
        by_cases hal : a < l.length
        · intro hc
          exact hout a hal ⟨hc.1, hc.2⟩
        · have e : a = l.length := by omega
          have := hge a (by omega)
          rw [e] at this ⊢
          rw [hz]
          omega)
      hz 18 0 (by omega) (by omega)
    unfold panel_check_click
    rcases hcmd with hc | hc <;>
      simp only [hc, hy, if_true, hs] <;>
      exact (set_focused_counts env _ _).2.1

/-- When at most 18 advertisements arrive in ascending order of non-zero
identifiers and are rendered without fault, a CLICK left of the hot zone at a
point of interval i issues exactly one focus request, for the i-th entry of
the window list. -/
theorem click_focuses_entry_when_ascending (env : Env) (s : State)
    (ads : List yutani_msg_window_advertise) (fin : yutani_msg_window_advertise)
    (rest : List yutani_msg_window_advertise)
    (hads : ∀ wa ∈ ads, wa.size ≠ 0 ∧ wa.wid ≠ 0) (hfin : fin.size = 0)
    (hasc : (ads.map (fun wa => wa.wid)).Sorted (fun a b => a < b)) (hn : ads.length ≤ 18)
    (hlefts : s.icon_lefts.length = 20) (hwids : s.icon_wids.length = 20)
    (hgen : hashmap_get s.icon_cache (ascii "generic") ≠ 0) (hfault : s.fault = false)
    (hok : ∀ wa ∈ ads, entry_ok (decode_ad wa) = true)
    (hfit : 140 + total_width env (ads.map decode_ad) < 2147483648) :
    ∃ t out, update_window_list env s (ads ++ fin :: rest) = some (t, out) ∧
      t.window_list = some (ads.map decode_ad) ∧
      ∀ i x y, i < ads.length → t.icon_lefts.getD i 0 ≤ x → x < t.icon_lefts.getD (i + 1) 0 →
        x < t.width - 24 →
        (panel_check_click env t ⟨mouse_command.click, x, y⟩).2
          = [Out.focus_window (((ads.map decode_ad).map (fun a => a.wid)).getD i 0)] := by
  have hsorted : List.insertionSort wid_le (ads.map decode_ad) = ads.map decode_ad := by
    apply List.Sorted.insertionSort_eq
    unfold List.Sorted at hasc ⊢
    rw [List.pairwise_map] at hasc ⊢
    exact hasc.imp (fun h => Nat.le_of_lt h)
  have hu := update_window_list_redraw env s ads fin rest (fun wa h => (hads wa h).1) hfin
  have hrd := update_window_list_renderable env s ads hgen hfault hok hfit
  rw [hsorted] at hu hrd
  refine ⟨_, _, hu, ?_, ?_⟩
  · rw [(redraw_frame env _).2.1]
  · intro i x y hi h1 h2 h3
    have hlen : (ads.map decode_ad).length = ads.length := by simp
    have hfirst := redraw_lefts_first env
      { s with window_list := some (ads.map decode_ad)
               icon_wids := record_wids ads 0 s.icon_wids }
      (ads.map decode_ad) hrd hlefts x i (by rw [hlen]; omega) h1
    have hscan := click_scan_hit _ x i hfirst ⟨h1, h2⟩ 18 0 (by omega) (by omega)
    have hx := not_le.mpr h3
    simp only [panel_check_click, ge_iff_le, hx, if_false]
    rw [hscan]
    rw [(redraw_frame env _).2.2.1]
    have hrec := record_wids_getD ads 0 s.icon_wids hwids (by omega) i hi
    rw [zero_add] at hrec
    have hmap : (ads.map decode_ad).map (fun a => a.wid) = ads.map (fun wa => wa.wid) := by
      simp [List.map_map, Function.comp_def, decode_ad]
    have hnz : (ads.map (fun wa => wa.wid)).getD i 0 ≠ 0 := by
      have hi2 : i < (ads.map (fun wa => wa.wid)).length := by simpa using hi
      rw [List.getD_eq_getElem?_getD, List.getElem?_eq_getElem hi2]
      simp only [Option.getD_some, List.getElem_map]
      exact (hads _ (List.getElem_mem _)).2
    rw [hrec, hmap, if_pos hnz]

/-! ## Faults and wrap-around at concrete inputs -/

/-- Without "generic" in the cache the lookup of an icon that has no file
returns `NULL`, and redraw faults at the first entry: nothing is recorded in
the table and nothing is flipped. -/
theorem redraw_faults_without_generic :
    (redraw sample_env { sample_state with icon_cache := [] }).1.fault = true ∧
      (redraw sample_env { sample_state with icon_cache := [] }).1.icon_lefts
        = sample_state.icon_lefts ∧
      (redraw sample_env { sample_state with icon_cache := [] }).2.count Out.flip = 0 := by
  decide

/-- An identifier of 75 bytes is probed in all three directories; one of 76
bytes overruns the path buffer at the first probe. -/
theorem icon_get_overruns_at_76_bytes :
    (icon_get sample_env sample_cached (List.replicate 75 97)).2.1.fault = false ∧
      (icon_get sample_env sample_cached (List.replicate 75 97)).2.2.length = 3 ∧
      (icon_get sample_env sample_cached (List.replicate 76 97)).2.1.fault = true ∧
      (icon_get sample_env sample_cached (List.replicate 76 97)).2.2 = [] := by
  decide

/-- With a text width of 2^31 - 1 the entry width and the boundaries wrap
around: the second boundary is negative. -/
theorem redraw_wraps_around :
    (redraw { sample_env with draw_string_width := fun _ => 2147483647 }
        sample_state).1.icon_lefts.take 4 = [140, -2147483463, 230, 0] := by
  decide

/-- An advertisement whose icon string is not terminated inside the blob is
installed in the list, and the redraw that follows faults when it reads the
icon identifier. -/
theorem update_window_list_faults_on_unterminated_icon :
    (update_window_list sample_env sample_cached
        [{ wid := 7, flags := 0, offsets := [0, 2, 0, 0, 0], strings := [97, 0, 98, 99] },
          sentinel]).map (fun r => (r.1.fault, r.1.window_list.map (List.map (fun a => a.wid)),
            r.2))
      = some (true, some [7], [Out.query_windows, Out.redraw]) := by
  decide

/-! ## The claims -/

/-- C1: for every sequence of advertisements with pairwise distinct window
identifiers, terminated by the zero-size sentinel, update_window_list
returns and the window list it installs is strictly ascending by window
identifier; and the call, redraw included, ends without fault when "generic"
is cached, the process has not faulted before, every advertisement decodes to
an entry that can be rendered and the entries fit the range of `int`. -/
theorem update_window_list_strictly_ascending (env : Env) (s : State)
    (ads : List yutani_msg_window_advertise) (fin : yutani_msg_window_advertise)
    (rest : List yutani_msg_window_advertise)
    (hads : ∀ wa ∈ ads, wa.size ≠ 0) (hfin : fin.size = 0)
    (hdistinct : (ads.map (fun wa => wa.wid)).Nodup) :
    ∃ t out l, update_window_list env s (ads ++ fin :: rest) = some (t, out) ∧
      t.window_list = some l ∧ (l.map (fun a => a.wid)).Sorted (fun a b => a < b) ∧
      (hashmap_get s.icon_cache (ascii "generic") ≠ 0 → s.fault = false →
        (∀ wa ∈ ads, entry_ok (decode_ad wa) = true) →
        140 + ((ads.map decode_ad).map
          (fun ad => 26 + (env.draw_string_width (ad.name.getD []) : Int) + 20)).sum
          < 2147483648 →
        t.fault = false) := by
  have hu := update_window_list_redraw env s ads fin rest hads hfin
  refine ⟨_, _, _, hu, (redraw_frame env _).2.1, ?_, ?_⟩
  · have hs : (List.insertionSort wid_le (ads.map decode_ad)).Sorted wid_le :=
      List.sorted_insertionSort wid_le _
    have hle : ((List.insertionSort wid_le (ads.map decode_ad)).map (fun a => a.wid)).Sorted
        (fun a b => a ≤ b) := by
      unfold List.Sorted
      rw [List.pairwise_map]
      exact hs
    have hp : ((List.insertionSort wid_le (ads.map decode_ad)).map (fun a => a.wid)).Perm
        (ads.map (fun wa => wa.wid)) := by
      have := (List.perm_insertionSort wid_le (ads.map decode_ad)).map (fun a => a.wid)
      simpa [List.map_map, Function.comp_def, decode_ad] using this
    exact hle.lt_of_le (hp.nodup_iff.mpr hdistinct)
  · intro hgen hfault hok hfit
    exact (redraw_ok env _ _ (update_window_list_renderable env s ads hgen hfault hok hfit)).1

/-- Witness of C1: the identifiers 5 and 2 arrive at a panel whose icon cache
is set up; the list is 2, 5 and the call ends without fault. -/
theorem update_window_list_strictly_ascending_witness :
    ∃ t out l, update_window_list sample_env sample_cached
        ([sample_advert 5, sample_advert 2] ++ sentinel :: []) = some (t, out) ∧
      t.window_list = some l ∧ (l.map (fun a => a.wid)).Sorted (fun a b => a < b) ∧
      t.fault = false := by
  obtain ⟨t, out, l, h1, h2, h3, h4⟩ := update_window_list_strictly_ascending sample_env
    sample_cached [sample_advert 5, sample_advert 2] sentinel [] (by decide) (by decide)
    (by decide)
  exact ⟨t, out, l, h1, h2, h3, h4 (by decide) (by decide) (by decide) (by decide)⟩

/-- C10: for every sequence of advertisements terminated by the sentinel,
update_window_list returns and the list it installs is the stable sort by
window identifier of the advertisements received, each entry carrying the
identifier and flags of its message and, as name and icon, the NUL-terminated
strings that start at offsets[0] and offsets[1] of its blob: the list equals
the insertion sort of these entries, is a permutation of them, is in
non-decreasing identifier order, and holds the entries of each identifier in
arrival order. The call ends without fault under the conditions stated for
C1. -/
theorem update_window_list_stable_sort (env : Env) (s : State)
    (ads : List yutani_msg_window_advertise) (fin : yutani_msg_window_advertise)
    (rest : List yutani_msg_window_advertise)
    (hads : ∀ wa ∈ ads, wa.size ≠ 0) (hfin : fin.size = 0)
    (received : List window_ad)
    (hreceived : received = ads.map (fun wa =>
      { wid := wa.wid
        flags := wa.flags
        name :=
          if 0 ∈ wa.strings.drop (wa.offsets.getD 0 0) then
            some ((wa.strings.drop (wa.offsets.getD 0 0)).takeWhile (fun b => b != 0))
          else none
        icon :=
          if 0 ∈ wa.strings.drop (wa.offsets.getD 1 0) then
            some ((wa.strings.drop (wa.offsets.getD 1 0)).takeWhile (fun b => b != 0))
          else none
        strings := wa.strings })) :
    ∃ t out l, update_window_list env s (ads ++ fin :: rest) = some (t, out) ∧
      t.window_list = some l ∧
      l = List.insertionSort wid_le received ∧
      l.Perm received ∧
      l.Sorted wid_le ∧
      (∀ w, l.filter (fun a => decide (a.wid = w))
        = received.filter (fun a => decide (a.wid = w))) ∧
      (hashmap_get s.icon_cache (ascii "generic") ≠ 0 → s.fault = false →
        (∀ ad ∈ received, entry_ok ad = true) →
        140 + (received.map
          (fun ad => 26 + (env.draw_string_width (ad.name.getD []) : Int) + 20)).sum
          < 2147483648 →
        t.fault = false) := by
  have hdec : received = ads.map decode_ad := by
    rw [hreceived]
    rfl
  have hu := update_window_list_redraw env s ads fin rest hads hfin
  rw [← hdec] at hu
  refine ⟨_, _, _, hu, (redraw_frame env _).2.1, rfl, List.perm_insertionSort wid_le _,
    List.sorted_insertionSort wid_le _, fun w => insertionSort_filter_wid _ w, ?_⟩
  intro hgen hfault hok hfit
  have hr := update_window_list_renderable env s ads hgen hfault
    (fun wa hwa => hok _ (by rw [hdec]; exact List.mem_map_of_mem _ hwa))
    (by rw [← hdec]; exact hfit)
  rw [← hdec] at hr
  exact (redraw_ok env _ _ hr).1

/-- Witness of C10: the identifiers 5, 2, 5 arrive at a panel whose icon
cache is set up; every entry is named "a" with icon "b" and the list is 2, 5,
5. -/
theorem update_window_list_stable_sort_witness :
    ∃ t out l, update_window_list sample_env sample_cached
        ([sample_advert 5, sample_advert 2, sample_advert 5] ++ sentinel :: []) = some (t, out) ∧
      t.window_list = some l ∧
      l = [{ wid := 2, flags := 0, name := some [97], icon := some [98],
              strings := [97, 0, 98, 0] },
            { wid := 5, flags := 0, name := some [97], icon := some [98],
              strings := [97, 0, 98, 0] },
            { wid := 5, flags := 0, name := some [97], icon := some [98],
              strings := [97, 0, 98, 0] }] ∧
      t.fault = false := by
  obtain ⟨t, out, l, h1, h2, h3, _, _, _, h7⟩ := update_window_list_stable_sort sample_env
    sample_cached [sample_advert 5, sample_advert 2, sample_advert 5] sentinel []
    (by decide) (by decide) _ rfl
  exact ⟨t, out, l, h1, h2, h3.trans (by decide),
    h7 (by decide) (by decide) (by decide) (by decide)⟩

/-- C5: for every panel state and every pointer event, panel_check_click
enters redraw exactly once if the hover target after the event differs from
the one before, and not at all otherwise; when the event is handled without
fault every redraw entered is completed by its flip; in particular a MOVE or
ENTER inside the height band that resolves to the current hover target causes
no redraw and changes nothing. -/
theorem panel_check_click_redraw_count (env : Env) (s : State)
    (evt : yutani_msg_window_mouse_event) :
    (panel_check_click env s evt).2.count Out.redraw
        = (if (panel_check_click env s evt).1.focused_app = s.focused_app then 0 else 1) ∧
      ((panel_check_click env s evt).1.fault = false →
        (panel_check_click env s evt).2.count Out.flip
          = (if (panel_check_click env s evt).1.focused_app = s.focused_app then 0 else 1)) ∧
      ((evt.command = mouse_command.move ∨ evt.command = mouse_command.enter) →
        evt.new_y < PANEL_HEIGHT → hover_scan s evt.new_x 18 0 = some s.focused_app →
        panel_check_click env s evt = (s, [])) := by
  have hset : ∀ i, (set_focused env s i).2.count Out.redraw
        = (if (set_focused env s i).1.focused_app = s.focused_app then 0 else 1) ∧
      ((set_focused env s i).1.fault = false →
        (set_focused env s i).2.count Out.flip
          = (if (set_focused env s i).1.focused_app = s.focused_app then 0 else 1)) := by
    intro i
    obtain ⟨c1, _, c3⟩ := set_focused_counts env s i
    exact ⟨c1, fun hnf => (c3 hnf).trans c1⟩
  have hboth : (panel_check_click env s evt).2.count Out.redraw
        = (if (panel_check_click env s evt).1.focused_app = s.focused_app then 0 else 1) ∧
      ((panel_check_click env s evt).1.fault = false →
        (panel_check_click env s evt).2.count Out.flip
          = (if (panel_check_click env s evt).1.focused_app = s.focused_app then 0 else 1)) := by
    unfold panel_check_click
    cases hc : evt.command with
    | click =>
      simp only
      split
      · simp
      · simp [click_scan_counts]
    | move =>
      simp only
      split
      · cases hs : hover_scan s evt.new_x 18 0 with
        | none => simp
        | some i => exact hset i
      · exact hset (-1)
    | enter =>
      simp only
      split
      · cases hs : hover_scan s evt.new_x 18 0 with
        | none => simp
        | some i => exact hset i
      · exact hset (-1)
    | leave => exact hset (-1)
    | other => simp
  refine ⟨hboth.1, hboth.2, ?_⟩
  intro hc hy hs
  unfold panel_check_click
  rcases hc with hc | hc <;> simp [hc, hy, hs, set_focused]

/-- C5 at a sample state: a MOVE onto the first entry redraws once, the same
MOVE again does not redraw. -/
theorem panel_check_click_redraw_count_witness :
    (panel_check_click sample_env (redraw sample_env sample_state).1
        ⟨mouse_command.move, 150, 5⟩).2.count Out.redraw = 1 ∧
      (panel_check_click sample_env (redraw sample_env sample_state).1
        ⟨mouse_command.move, 150, 5⟩).2.count Out.flip = 1 ∧
      (panel_check_click sample_env
        (panel_check_click sample_env (redraw sample_env sample_state).1
          ⟨mouse_command.move, 150, 5⟩).1
        ⟨mouse_command.move, 150, 5⟩).2.count Out.redraw = 0 :=
  ⟨(panel_check_click_redraw_count sample_env (redraw sample_env sample_state).1
      ⟨mouse_command.move, 150, 5⟩).1.trans (by decide),
    ((panel_check_click_redraw_count sample_env (redraw sample_env sample_state).1
      ⟨mouse_command.move, 150, 5⟩).2.1 (by decide)).trans (by decide),
    (panel_check_click_redraw_count sample_env
      (panel_check_click sample_env (redraw sample_env sample_state).1
        ⟨mouse_command.move, 150, 5⟩).1
      ⟨mouse_command.move, 150, 5⟩).1.trans (by decide)⟩

/-- C4: when the dispatcher loop starts with the continuation flag set and
the polled messages contain a CLICK with x in [width - 24, width) (every
refresh among them being answered up to its sentinel, and the run not ending
in a fault), the loop returns, the trace holds exactly one session-end request
however many hot-zone clicks follow, the continuation flag is false
afterwards, and the click that ends the loop emits the session-end request
and nothing else (no focus request). -/
theorem event_loop_session_end_once (env : Env) (msgs : List (Option yutani_msg)) (s : State)
    (hc : s._continue = true)
    (hterm : ∀ adverts, some (yutani_msg.notify adverts) ∈ msgs → ∃ wa ∈ adverts, wa.size = 0)
    (hhandled : ∀ r, event_loop env msgs s = some r → r.1.fault = false)
    (hclick : ∃ x y, some (yutani_msg.window_mouse_event ⟨mouse_command.click, x, y⟩) ∈ msgs ∧
      s.width - 24 ≤ x ∧ x < s.width) :
    ∃ t out, event_loop env msgs s = some (t, out) ∧
      out.count Out.session_end = 1 ∧ t._continue = false ∧
      ∃ before evt after u pre,
        msgs = before ++ some (yutani_msg.window_mouse_event evt) :: after ∧
        evt.command = mouse_command.click ∧ evt.new_x ≥ s.width - 24 ∧
        event_loop env before s = some (u, pre) ∧
        (panel_check_click env u evt).2 = [Out.session_end] ∧
        (∀ wid, Out.focus_window wid ∉ (panel_check_click env u evt).2) ∧
        out = pre ++ (panel_check_click env u evt).2 := by
  have hhot : ∃ m ∈ msgs, hot_click s.width m = true := by
    obtain ⟨x, y, hmem, hx, _⟩ := hclick
    refine ⟨_, hmem, ?_⟩
    simp only [hot_click, decide_eq_true_eq, true_and]
    omega
  obtain ⟨before, evt, after, u, pre, e1, e2, e3, e4, _, ew, e6, e7⟩ :=
    event_loop_first_hot env msgs s hc hterm hhandled hhot
  have hp := panel_check_click_hot env u evt e2 e3
  refine ⟨_, _, e7, ?_, rfl, before, evt, after, u, pre, e1, e2, by rw [← ew]; exact e3, e4,
    by rw [hp], ?_, by rw [hp]⟩
  · rw [List.count_append, e6]
    rfl
  · intro wid
    rw [hp]
    simp

/-- Witness of C4: a refresh, a MOVE, a hot-zone CLICK and a second hot-zone
CLICK on a panel 1024 pixels wide whose icon cache is set up. -/
theorem event_loop_session_end_once_witness :
    ∃ t out, event_loop sample_env
        [some (yutani_msg.notify [sample_advert 5, sentinel]),
          some (yutani_msg.window_mouse_event ⟨mouse_command.move, 150, 5⟩),
          some (yutani_msg.window_mouse_event ⟨mouse_command.click, 1010, 5⟩),
          some (yutani_msg.window_mouse_event ⟨mouse_command.click, 1011, 5⟩)]
        sample_cached = some (t, out) ∧
      out.count Out.session_end = 1 ∧ t._continue = false ∧ t.fault = false := by
  have hnf : ∀ r, event_loop sample_env
      [some (yutani_msg.notify [sample_advert 5, sentinel]),
        some (yutani_msg.window_mouse_event ⟨mouse_command.move, 150, 5⟩),
        some (yutani_msg.window_mouse_event ⟨mouse_command.click, 1010, 5⟩),
        some (yutani_msg.window_mouse_event ⟨mouse_command.click, 1011, 5⟩)]
      sample_cached = some r → r.1.fault = false := by
    intro r hr
    have hall : (event_loop sample_env
        [some (yutani_msg.notify [sample_advert 5, sentinel]),
          some (yutani_msg.window_mouse_event ⟨mouse_command.move, 150, 5⟩),
          some (yutani_msg.window_mouse_event ⟨mouse_command.click, 1010, 5⟩),
          some (yutani_msg.window_mouse_event ⟨mouse_command.click, 1011, 5⟩)]
        sample_cached).all (fun r => !r.1.fault) = true := by decide
    rw [hr] at hall
    simpa using hall
  obtain ⟨t, out, h1, h2, h3, _⟩ := event_loop_session_end_once sample_env
    [some (yutani_msg.notify [sample_advert 5, sentinel]),
      some (yutani_msg.window_mouse_event ⟨mouse_command.move, 150, 5⟩),
      some (yutani_msg.window_mouse_event ⟨mouse_command.click, 1010, 5⟩),
      some (yutani_msg.window_mouse_event ⟨mouse_command.click, 1011, 5⟩)]
    sample_cached (by decide)
    (by
      intro adverts hmem
      simp only [List.mem_cons, Option.some.injEq, yutani_msg.notify.injEq, reduceCtorEq,
        List.mem_singleton, or_false, List.not_mem_nil] at hmem
      rw [hmem]
      exact ⟨sentinel, by simp, rfl⟩)
    hnf
    ⟨1010, 5, by simp, by decide, by decide⟩
  exact ⟨t, out, h1, h2, h3, hnf _ h1⟩

/-- C2 fails on the code: the windows 5 and 2 are advertised in that order,
the list is drawn as 2, 5, so the first entry, drawn in [140, 194), is window
2; a CLICK at x = 150 issues a focus request for window 5, the first
advertisement to arrive. -/
theorem click_focuses_by_arrival_order :
    ∃ t out l, startup sample_env 1024 [sample_advert 5, sample_advert 2, sentinel]
        = some (t, out) ∧
      t.window_list = some l ∧ l.map (fun a => a.wid) = [2, 5] ∧
      t.icon_lefts.take 4 = [140, 194, 248, 0] ∧ t.icon_wids.take 3 = [5, 2, 0] ∧
      (panel_check_click sample_env t ⟨mouse_command.click, 150, 5⟩).2 = [Out.focus_window 5] :=
  ⟨_, _, _, rfl, rfl, by decide, by decide, by decide, by decide⟩

/-- C3 fails on the code: with 17 windows advertised and the hover target on
the first entry, a MOVE to x = 10, which lies in none of the 17 intervals,
leaves the hover target at entry 0 instead of clearing it to -1. -/
theorem hover_not_cleared_with_17_windows :
    ∃ t out, startup sample_env 1280
        ((List.range 17).map (fun k => sample_advert (k + 1)) ++ [sentinel]) = some (t, out) ∧
      t.icon_lefts = [140, 194, 248, 302, 356, 410, 464, 518, 572, 626, 680, 734, 788, 842, 896,
        950, 1004, 1058, 0, 0] ∧
      t.focused_app = -1 ∧
      (panel_check_click sample_env t ⟨mouse_command.move, 150, 5⟩).1.focused_app = 0 ∧
      (panel_check_click sample_env
        (panel_check_click sample_env t ⟨mouse_command.move, 150, 5⟩).1
        ⟨mouse_command.move, 10, 5⟩).1.focused_app = 0 :=
  ⟨_, _, rfl, by decide, by decide, by decide, by decide⟩

/-- C9 fails on the code: after a refresh with the windows 1, 2, 3 and a
refresh with no window at all, the window list is empty, yet a CLICK at
x = 200 issues a focus request for window 2, found through the stale
boundary icon_lefts[2] = 248 and the stale identifier icon_wids[1] = 2. -/
theorem click_focuses_stale_window :
    ∃ t out u out2, startup sample_env 1024
        [sample_advert 1, sample_advert 2, sample_advert 3, sentinel] = some (t, out) ∧
      update_window_list sample_env t [sentinel] = some (u, out2) ∧
      u.window_list = some [] ∧
      u.icon_lefts.take 5 = [140, 0, 248, 302, 0] ∧ u.icon_wids.take 4 = [1, 2, 3, 0] ∧
      (panel_check_click sample_env u ⟨mouse_command.click, 200, 5⟩).2 = [Out.focus_window 2] :=
  ⟨_, _, _, _, rfl, rfl, by decide, by decide, by decide, by decide⟩

end Panel
